import Mathlib

/-!
Verification of the HealthCare-AdvisorAgent session-log subsystem.

Text is modelled as `List Char` (one JS string = its character sequence).
The definitions below are shallow embeddings of the functions in
`src/services/userHistory.ts` and of the `/diagnose` handler in
`src/server.ts`; file-system effects are modelled by an explicit store
with injectable per-path faults.
-/

set_option maxHeartbeats 1000000
set_option maxRecDepth 10000

abbrev Text := List Char

/-- Characters of a string literal. -/
def str (s : String) : Text := s.data

/-- Split a text on newline characters, exactly as JS `s.split('\n')`:
the result always has one more piece than there are newlines. -/
def splitOnNl : Text → List Text
  | [] => [[]]
  | c :: rest =>
    if c = '\n' then [] :: splitOnNl rest
    else
      match splitOnNl rest with
      | [] => [[c]]
      | l :: ls => (c :: l) :: ls

/-- Join a list of lines with newlines, as JS `lines.join('\n')`. -/
def joinNl : List Text → Text
  | [] => []
  | [l] => l
  | l :: l₂ :: ls => l ++ '\n' :: joinNl (l₂ :: ls)

/-- Join with an arbitrary separator, as JS `parts.join(sep)`. -/
def joinWith (sep : Text) : List Text → Text
  | [] => []
  | [l] => l
  | l :: l₂ :: ls => l ++ sep ++ joinWith sep (l₂ :: ls)

/-- Whitespace for JS `String.prototype.trim` (WhiteSpace ∪ LineTerminator). -/
def isJsWs (c : Char) : Bool :=
  c = ' ' || c = '\t' || c = '\n' || c = '\r' || c = '\u000b' || c = '\u000c' ||
  c = '\u00a0' || c = '\u1680' ||
  ('\u2000' <= c && c <= '\u200a') ||
  c = '\u2028' || c = '\u2029' || c = '\u202f' || c = '\u205f' ||
  c = '\u3000' || c = '\ufeff'

/-- JS `line.trim()`. -/
def jsTrim (l : Text) : Text :=
  ((l.dropWhile isJsWs).reverse.dropWhile isJsWs).reverse

/-- Boolean prefix test on texts. -/
def isPrefixTxt : Text → Text → Bool
  | [], _ => true
  | _ :: _, [] => false
  | a :: as, b :: bs => a = b && isPrefixTxt as bs

/-- Boolean substring test, JS `l.includes(pat)`. -/
def hasInfixTxt (pat : Text) : Text → Bool
  | [] => isPrefixTxt pat []
  | c :: t => isPrefixTxt pat (c :: t) || hasInfixTxt pat t

/-! ## Line classification (src/services/userHistory.ts, lines 58-119) -/

/-- The entry-start pattern of `line.match(/^### Session/)`. -/
def sessionPat : Text := str "### Session"

/-- Marker searched by `line.includes('**Symptoms Reported:**')`. -/
def symptomsMarkerTxt : Text := str "**Symptoms Reported:**"

/-- Marker searched by `line.includes('**Additional Health Context:**')`. -/
def healthMarkerTxt : Text := str "**Additional Health Context:**"

/-- Marker searched by `line.includes('**Diagnosis & Recommendations:**')`. -/
def diagnosisMarkerTxt : Text := str "**Diagnosis & Recommendations:**"

/-- `line.match(/^### Session/)` as a Boolean. -/
def isSessionStart (l : Text) : Bool := isPrefixTxt sessionPat l

def hasSymptomsMarker (l : Text) : Bool := hasInfixTxt symptomsMarkerTxt l

def hasHealthMarker (l : Text) : Bool := hasInfixTxt healthMarkerTxt l

def hasDiagnosisMarker (l : Text) : Bool := hasInfixTxt diagnosisMarkerTxt l

/-- `line.trim() === '---'`. -/
def isSeparatorLine (l : Text) : Bool := jsTrim l = str "---"

/-- A line that triggers none of the four marker tests of the scanner. -/
def isMarkerLine (l : Text) : Bool :=
  isSessionStart l || hasSymptomsMarker l || hasHealthMarker l || hasDiagnosisMarker l

/-- A line the scanner treats by the default rule: no marker and no separator. -/
def plainLine (l : Text) : Bool := !isMarkerLine l && !isSeparatorLine l

/-! ## The scanner of `extractUserProvidedHistory`

The scanner is written generically in the element type `α` with a
projection `val : α → Text`; the program runs it at `α = Text`,
`val = id`, and the provenance arguments run it at `α = Nat × Text`,
`val = Prod.snd`, which tags every line with its position. -/

/-- The mutable state of the loop: `userProvidedSections`, `currentSession`
and the three section flags. -/
structure ScanState (α : Type) where
  sections : List (List α)
  current : List α
  inSymptoms : Bool
  inHealth : Bool
  inDiagnosis : Bool
deriving DecidableEq

def initScan {α : Type} : ScanState α := ⟨[], [], false, false, false⟩

/-- `if (currentSession.length > 0) userProvidedSections.push(...)`. -/
def pushCurrent {α : Type} (s : ScanState α) : List (List α) :=
  if s.current.isEmpty then s.sections else s.sections ++ [s.current]

/-- One iteration of the `for` loop over lines. -/
def processLine {α : Type} (val : α → Text) (s : ScanState α) (x : α) : ScanState α :=
  let line := val x
  if isSessionStart line then
    { sections := pushCurrent s, current := [x],
      inSymptoms := false, inHealth := false, inDiagnosis := false }
  else if hasSymptomsMarker line then
    { s with inSymptoms := true, inHealth := false, inDiagnosis := false,
             current := s.current ++ [x] }
  else if hasHealthMarker line then
    { s with inSymptoms := false, inHealth := true, inDiagnosis := false,
             current := s.current ++ [x] }
  else if hasDiagnosisMarker line then
    { s with inSymptoms := false, inHealth := false, inDiagnosis := true }
  else if isSeparatorLine line then
    { s with inSymptoms := false, inHealth := false, inDiagnosis := false }
  else if s.inSymptoms || s.inHealth then
    { s with current := s.current ++ [x] }
  else s

def scanLines {α : Type} (val : α → Text) (lines : List α) : ScanState α :=
  lines.foldl (processLine val) initScan

/-- The completed `userProvidedSections` after the loop and the final flush
(`if (currentSession.length > 0 && !inDiagnosisSection) push`). -/
def finalSections {α : Type} (val : α → Text) (lines : List α) : List (List α) :=
  let s := scanLines val lines
  if s.current.isEmpty = false ∧ s.inDiagnosis = false then s.sections ++ [s.current]
  else s.sections

/-- The scanner as run by the program, on bare lines. -/
def userSections (lines : List Text) : List (List Text) := finalSections id lines

/-- The header match
`markdownContent.match(/^# Medical History[^\n]*\n\n\*\*Created:\*\*[^\n]*/)`,
or `''` when there is no match. -/
def headerOf (md : Text) : Text :=
  match splitOnNl md with
  | l0 :: l1 :: l2 :: _ =>
    if isPrefixTxt (str "# Medical History") l0 ∧ l1 = [] ∧ isPrefixTxt (str "**Created:**") l2
    then l0 ++ '\n' :: '\n' :: l2 else []
  | _ => []

/-- `extractUserProvidedHistory` (src/services/userHistory.ts, lines 50-150). -/
def extractUserProvidedHistory (md : Text) : Text :=
  let blocks := userSections (splitOnNl md)
  let header := headerOf md
  if blocks = [] then
    header ++ str "\n\n---\n\n## Session History\n\n"
  else
    header ++ str "\n\n---\n\n## Session History\n\n"
      ++ joinWith (str "\n\n---\n\n") (blocks.map joinNl)
      ++ str "\n\n"



/-! ## Session Log Store (src/services/userHistory.ts, lines 16-46 and 153-184)

File-system effects are modelled by an explicit store mapping paths to
contents, with injectable per-path read and write faults standing for
permission or disk errors. -/

inductive FsError where
  | notFound
  | permission
  | disk
deriving DecidableEq

/-- The store: files plus injected faults. -/
structure Fs where
  files : List (Text × Text)
  readErrs : List (Text × FsError)
  writeErrs : List (Text × FsError)
deriving DecidableEq

def findAssoc {β : Type} (l : List (Text × β)) (p : Text) : Option β :=
  (l.find? (fun q => decide (q.1 = p))).map (·.2)

def setAssoc (l : List (Text × Text)) (p c : Text) : List (Text × Text) :=
  match l with
  | [] => [(p, c)]
  | q :: rest => if q.1 = p then (p, c) :: rest else q :: setAssoc rest p c

def readFile (fs : Fs) (p : Text) : Except FsError Text :=
  match findAssoc fs.readErrs p with
  | some e => .error e
  | none =>
    match findAssoc fs.files p with
    | some c => .ok c
    | none => .error .notFound

def writeFile (fs : Fs) (p c : Text) : Except FsError Fs :=
  match findAssoc fs.writeErrs p with
  | some e => .error e
  | none => .ok { fs with files := setAssoc fs.files p c }

def appendFile (fs : Fs) (p c : Text) : Except FsError Fs :=
  match findAssoc fs.writeErrs p with
  | some e => .error e
  | none =>
    let old := match findAssoc fs.files p with
      | some o => o
      | none => []
    .ok { fs with files := setAssoc fs.files p (old ++ c) }

/-- `path.join(USER_DATA_DIR, userId + '.md')`. -/
def logPath (uid : Text) : Text := str "user-data/" ++ uid ++ str ".md"

/-- `initializeUserDataDir`: a mkdir failure is logged and swallowed, so the
call always resolves. -/
def initializeUserDataDir (mkdirResult : Except FsError Unit) : Except FsError Unit :=
  match mkdirResult with
  | .ok _ => .ok ()
  | .error _ => .ok ()

/-- The fresh-log content created by `loadUserHistory` when reading fails;
`now` stands for `new Date().toISOString()`. -/
def initialContent (uid now : Text) : Text :=
  str "# Medical History - User " ++ uid ++ str "\n\n**Created:** " ++ now
    ++ str "\n\n---\n\n## Session History\n\n"

/-- `loadUserHistory` (lines 26-46): any read failure whatsoever takes the
catch branch, which writes and returns a fresh log. -/
def loadUserHistory (fs : Fs) (uid now : Text) : Except FsError (Text × Fs) :=
  match readFile fs (logPath uid) with
  | .ok content => .ok (content, fs)
  | .error _ =>
    match writeFile fs (logPath uid) (initialContent uid now) with
    | .ok fs2 => .ok (initialContent uid now, fs2)
    | .error e => .error e

/-- The optional health-context block of the entry template; JS treats an
empty `healthHistory` string as false. -/
def healthBlock : Option Text → Text
  | some h => if h = [] then [] else str "**Additional Health Context:**\n" ++ h ++ str "\n"
  | none => []

/-- The template literal `sessionEntry` of `appendToUserHistory`. -/
def sessionEntryText (now symptoms : Text) (health : Option Text) (diagnosis : Text) : Text :=
  str "\n### Session " ++ now ++ str "\n\n**Symptoms Reported:**\n" ++ symptoms
    ++ str "\n\n" ++ healthBlock health
    ++ str "\n**Diagnosis & Recommendations:**\n" ++ diagnosis ++ str "\n\n---\n\n"

/-- `appendToUserHistory` (lines 153-179): serializes and appends; no catch,
so an appendFile failure propagates. -/
def appendToUserHistory (fs : Fs) (uid now symptoms diagnosis : Text)
    (health : Option Text) : Except FsError Fs :=
  appendFile fs (logPath uid) (sessionEntryText now symptoms health diagnosis)

/-- `ensureUserId` (lines 182-184): `providedUserId || randomUUID()`, where
`fresh` stands for the generated UUID. JS treats both a missing argument and
the empty string as false. -/
def ensureUserId (provided : Option Text) (fresh : Text) : Text :=
  match provided with
  | some s => if s = [] then fresh else s
  | none => fresh

/-! ## Interaction Orchestrator (src/server.ts, POST /diagnose, lines 76-185) -/

structure DiagnoseRequest where
  symptoms : Option Text
  healthHistory : Option Text
  userId : Option Text
deriving DecidableEq

/-- The model stream: a list of chunk contents (a chunk may carry no
content), either running to completion or raising after a prefix. -/
inductive StreamOutcome where
  | success (chunks : List (Option Text))
  | failure (chunks : List (Option Text)) (err : Text)
deriving DecidableEq

/-- `response += content` over the delivered chunks; contentless chunks
contribute nothing. -/
def concatChunks (chunks : List (Option Text)) : Text :=
  chunks.foldl (fun acc c => match c with | some t => acc ++ t | none => acc) []

/-- What one request leaves behind: HTTP status, the streamed body, the
store, and whether the model was invoked and an entry appended. -/
structure HandlerResult where
  status : Nat
  body : Text
  fs : Fs
  modelCalled : Bool
  appended : Bool
deriving DecidableEq

def natText (n : Nat) : Text := (Nat.repr n).data

/-- The three `res.write` notices of the `streamError` catch branch. -/
def streamErrorNotice (err : Text) (chunkCount respLen : Nat) : Text :=
  str "\n\n[Error during streaming]: " ++ err ++ str "\n"
    ++ str "[Chunks received before error: " ++ natText chunkCount ++ str "]\n"
    ++ str "[Response length before error: " ++ natText respLen ++ str " characters]\n"

/-- The 400 response for a missing `symptoms` field (quotes elided). -/
def inputErrorBody : Text :=
  str "Symptoms are required. Please provide a symptoms field in the request body."

/-- The terminal marker `\n\n--- USER_ID: <id> ---`. -/
def userIdTrailer (uid : Text) : Text :=
  str "\n\n--- USER_ID: " ++ uid ++ str " ---"

/-- The `/diagnose` handler: reject empty symptoms, resolve the identifier,
load and filter history, stream the model reply, then append and emit the
trailer on success or write the error notices on a stream failure.  `fresh`
stands for `randomUUID()` and `now` for the timestamps taken during the
request. -/
def diagnoseHandler (req : DiagnoseRequest) (fs : Fs) (fresh now : Text)
    (stream : StreamOutcome) : HandlerResult :=
  match req.symptoms with
  | none => ⟨400, inputErrorBody, fs, false, false⟩
  | some symptoms =>
    if symptoms = [] then ⟨400, inputErrorBody, fs, false, false⟩
    else
      let uid := ensureUserId req.userId fresh
      match loadUserHistory fs uid now with
      | .error _ => ⟨500, [], fs, false, false⟩
      | .ok (hist, fs1) =>
        let _priorContext := extractUserProvidedHistory hist
        match stream with
        | .success chunks =>
          let response := concatChunks chunks
          match appendToUserHistory fs1 uid now symptoms response req.healthHistory with
          | .ok fs2 => ⟨200, response ++ userIdTrailer uid, fs2, true, true⟩
          | .error _ =>
            ⟨200, response ++ streamErrorNotice (str "append failed") chunks.length response.length,
              fs1, true, false⟩
        | .failure chunks err =>
          let response := concatChunks chunks
          ⟨200, response ++ streamErrorNotice err chunks.length response.length, fs1, true, false⟩

/-! ## The fixed entry grammar (spec section 6) and well-formed logs -/

/-- One recorded interaction, as appended by `appendToUserHistory`. -/
structure SessionEntry where
  ts : Text
  symptoms : Text
  health : Option Text
  output : Text
deriving DecidableEq

def serializeEntry (e : SessionEntry) : Text :=
  sessionEntryText e.ts e.symptoms e.health e.output

/-- A raw log as produced by one `loadUserHistory` creation followed by
`appendToUserHistory` for each entry. -/
def mkLog (uid now : Text) (es : List SessionEntry) : Text :=
  initialContent uid now ++ (es.map serializeEntry).flatten

def sessionLine (ts : Text) : Text := str "### Session " ++ ts

def headerLine0 (uid : Text) : Text := str "# Medical History - User " ++ uid

def createdLine (now : Text) : Text := str "**Created:** " ++ now

/-- A text none of whose lines is a marker or separator line. -/
def PlainText (t : Text) : Prop := ∀ l ∈ splitOnNl t, plainLine l = true

instance (t : Text) : Decidable (PlainText t) := by
  unfold PlainText; infer_instance

def WfHealth : Option Text → Prop
  | some h => h ≠ [] ∧ PlainText h
  | none => True

instance : (o : Option Text) → Decidable (WfHealth o)
  | some _ => inferInstanceAs (Decidable (_ ∧ _))
  | none => inferInstanceAs (Decidable True)

/-- Field texts contain no marker/separator lines and timestamps are
single-line: the hypotheses of claim C2's "fixed grammar". -/
def WfEntry (e : SessionEntry) : Prop :=
  '\n' ∉ e.ts ∧ PlainText e.symptoms ∧ PlainText e.output ∧ WfHealth e.health

instance (e : SessionEntry) : Decidable (WfEntry e) := by
  unfold WfEntry; infer_instance

def WfLog (uid now : Text) (es : List SessionEntry) : Prop :=
  '\n' ∉ uid ∧ '\n' ∉ now ∧
  plainLine (headerLine0 uid) = true ∧ plainLine (createdLine now) = true ∧
  ∀ e ∈ es, WfEntry e

instance (uid now : Text) (es : List SessionEntry) : Decidable (WfLog uid now es) := by
  unfold WfLog; infer_instance

/-- The lines of the fixed log header produced by `initialContent`. -/
def headerLines (uid now : Text) : List Text :=
  [headerLine0 uid, [], createdLine now, [], str "---", [], str "## Session History", []]

/-- The lines one serialized entry contributes to the log. -/
def entryLines (e : SessionEntry) : List Text :=
  [[], sessionLine e.ts, [], symptomsMarkerTxt]
    ++ splitOnNl e.symptoms ++ [[]]
    ++ (match e.health with
        | some h => [healthMarkerTxt] ++ splitOnNl h
        | none => [])
    ++ [[], diagnosisMarkerTxt]
    ++ splitOnNl e.output ++ [[], str "---", []]

/-- The full line decomposition of `mkLog`. -/
def logLines (uid now : Text) (es : List SessionEntry) : List Text :=
  headerLines uid now ++ (es.map entryLines).flatten ++ [[]]

/-- The block the Provenance Filter keeps for one entry: the session line,
the symptom and health-context sections, and no diagnosis text. -/
def entryBlock (e : SessionEntry) : List Text :=
  [sessionLine e.ts, symptomsMarkerTxt] ++ splitOnNl e.symptoms ++ [[]]
    ++ (match e.health with
        | some h => [healthMarkerTxt] ++ splitOnNl h
        | none => [])
    ++ [[]]

/-- The header part matched back out of the log by the filter. -/
def headerText (uid now : Text) : Text :=
  headerLine0 uid ++ '\n' :: '\n' :: createdLine now

/-- The exact output of the filter on a well-formed log: built from the
header, the fixed scaffold and the entry blocks only — no `output` field of
any entry is consulted. -/
def expectedFiltered (uid now : Text) (es : List SessionEntry) : Text :=
  if es = [] then headerText uid now ++ str "\n\n---\n\n## Session History\n\n"
  else headerText uid now ++ str "\n\n---\n\n## Session History\n\n"
    ++ joinWith (str "\n\n---\n\n") ((es.map entryBlock).map joinNl) ++ str "\n\n"


def pushCur (secs : List (List Text)) (cur : List Text) : List (List Text) :=
  if cur.isEmpty then secs else secs ++ [cur]

/-- The sections/current pair after scanning a list of serialized entries. -/
def foldBlocks (secs : List (List Text)) (cur : List Text) :
    List SessionEntry → List (List Text) × List Text
  | [] => (secs, cur)
  | e :: rest => foldBlocks (pushCur secs cur) (entryBlock e) rest

/-- An entry with its model output erased: what the filter may depend on. -/
def eraseOutput (e : SessionEntry) : SessionEntry := ⟨e.ts, e.symptoms, e.health, []⟩

/-- The lines separating two blocks in a filtered view (`\n\n---\n\n`). -/
def sepPadLines : List Text := [[], str "---", []]

/-- The line list of `joinWith "\n\n---\n\n" (blocks.map joinNl)`. -/
def interBlocks : List (List Text) → List Text
  | [] => []
  | [b] => b
  | b :: b2 :: bs => b ++ (sepPadLines ++ interBlocks (b2 :: bs))

/-- What re-filtering does to the blocks of a filtered view: every block of
a well-formed log ends inside a symptoms or health-context section, so the
blank padding around the next separator (or the trailing blank lines) is
swept into it. -/
def padBlocks : List (List Text) → List (List Text)
  | [] => []
  | [b] => [b ++ [[], []]]
  | b :: b2 :: bs => (b ++ [[]]) :: padBlocks (b2 :: bs)

/-- The output of filtering an already-filtered well-formed log. -/
def expectedTwice (uid now : Text) (es : List SessionEntry) : Text :=
  if es = [] then headerText uid now ++ str "\n\n---\n\n## Session History\n\n"
  else headerText uid now ++ str "\n\n---\n\n## Session History\n\n"
    ++ joinWith (str "\n\n---\n\n") ((padBlocks (es.map entryBlock)).map joinNl)
    ++ str "\n\n"

/-- Lines tagged with their position, for provenance statements. -/
def idxFrom (n : Nat) : List Text → List (Nat × Text)
  | [] => []
  | l :: ls => (n, l) :: idxFrom (n + 1) ls

def idx (lines : List Text) : List (Nat × Text) := idxFrom 0 lines

/-- Forget the extra structure carried through the scanner. -/
def mapState {α β : Type} (f : α → β) (s : ScanState α) : ScanState β :=
  ⟨s.sections.map (List.map f), s.current.map f, s.inSymptoms, s.inHealth, s.inDiagnosis⟩

/-- `t` occurs somewhere in the scanner state. -/
def memState {α : Type} (t : α) (s : ScanState α) : Prop :=
  t ∈ s.current ∨ ∃ b ∈ s.sections, t ∈ b

/-- A line the scanner treats as a diagnosis marker: it contains the
diagnosis marker and none of the earlier tests fires first. -/
def pureDiagnosisMarker (l : Text) : Bool :=
  !isSessionStart l && !hasSymptomsMarker l && !hasHealthMarker l && hasDiagnosisMarker l


/-! ## Lemmas about line splitting and joining -/

theorem splitOnNl_ne_nil (t : Text) : splitOnNl t ≠ [] := by
  induction t with
  | nil => simp [splitOnNl]
  | cons c rest ih =>
    simp only [splitOnNl]
    by_cases h : c = '\n'
    · simp [h]
    · simp only [h, if_false]
      cases hsplit : splitOnNl rest with
      | nil => simp
      | cons l ls => simp

theorem noNl_splitOnNl (t : Text) : ∀ l ∈ splitOnNl t, '\n' ∉ l := by
  induction t with
  | nil => simp [splitOnNl]
  | cons c rest ih =>
    simp only [splitOnNl]
    by_cases h : c = '\n'
    · simp only [h, if_pos rfl]
      intro l hl
      rcases List.mem_cons.mp hl with h1 | h2
      · simp [h1]
      · exact ih l h2
    · simp only [h, if_false]
      cases hsplit : splitOnNl rest with
      | nil => exact absurd hsplit (splitOnNl_ne_nil rest)
      | cons l0 ls =>
        intro l hl
        rcases List.mem_cons.mp hl with h1 | h2
        · subst h1
          intro hc
          rcases List.mem_cons.mp hc with h3 | h4
          · exact h h3.symm
          · exact ih l0 (by rw [hsplit]; exact List.mem_cons_self _ _) h4
        · exact ih l (by rw [hsplit]; exact List.mem_cons_of_mem _ h2)

theorem splitOnNl_noNl (t : Text) (h : '\n' ∉ t) : splitOnNl t = [t] := by
  induction t with
  | nil => simp [splitOnNl]
  | cons c rest ih =>
    have hc : c ≠ '\n' := fun hc => h (hc ▸ List.mem_cons_self _ _)
    have hr : '\n' ∉ rest := fun hr => h (List.mem_cons_of_mem _ hr)
    simp only [splitOnNl, hc, if_false]
    rw [ih hr]

theorem joinNl_splitOnNl (t : Text) : joinNl (splitOnNl t) = t := by
  induction t with
  | nil => simp [splitOnNl, joinNl]
  | cons c rest ih =>
    simp only [splitOnNl]
    by_cases h : c = '\n'
    · subst h
      simp only [if_pos rfl]
      cases hsplit : splitOnNl rest with
      | nil => exact absurd hsplit (splitOnNl_ne_nil rest)
      | cons l ls =>
        rw [hsplit] at ih
        simp [joinNl, ih]
    · simp only [h, if_false]
      cases hsplit : splitOnNl rest with
      | nil => exact absurd hsplit (splitOnNl_ne_nil rest)
      | cons l ls =>
        rw [hsplit] at ih
        cases ls with
        | nil => simpa [joinNl] using congrArg (c :: ·) ih
        | cons l2 ls2 => simpa [joinNl] using congrArg (c :: ·) ih

theorem joinNl_append (A B : List Text) (hA : A ≠ []) (hB : B ≠ []) :
    joinNl (A ++ B) = joinNl A ++ '\n' :: joinNl B := by
  induction A with
  | nil => exact absurd rfl hA
  | cons a A ih =>
    cases A with
    | nil =>
      cases B with
      | nil => exact absurd rfl hB
      | cons b B => simp [joinNl]
    | cons a2 A2 =>
      have := ih (by simp)
      simp only [List.cons_append, joinNl, List.append_eq] at *
      rw [this]
      simp [joinNl]

theorem splitOnNl_append_cons (a b : Text) (h : '\n' ∉ a) :
    splitOnNl (a ++ '\n' :: b) = a :: splitOnNl b := by
  induction a with
  | nil => simp [splitOnNl]
  | cons c rest ih =>
    have hc : c ≠ '\n' := fun hc => h (hc ▸ List.mem_cons_self _ _)
    have hr : '\n' ∉ rest := fun hr => h (List.mem_cons_of_mem _ hr)
    simp only [List.cons_append, splitOnNl, hc, if_false, List.append_eq]
    rw [ih hr]

theorem splitOnNl_joinNl (L : List Text) (hne : L ≠ []) (h : ∀ l ∈ L, '\n' ∉ l) :
    splitOnNl (joinNl L) = L := by
  induction L with
  | nil => exact absurd rfl hne
  | cons l ls ih =>
    cases ls with
    | nil => simpa [joinNl] using splitOnNl_noNl l (h l (List.mem_cons_self _ _))
    | cons l2 ls2 =>
      simp only [joinNl]
      rw [splitOnNl_append_cons _ _ (h l (List.mem_cons_self _ _))]
      rw [ih (by simp) (fun x hx => h x (List.mem_cons_of_mem _ hx))]

/-! ## Step lemmas for the scanner -/

theorem plainLine_parts (l : Text) (h : plainLine l = true) :
    isSessionStart l = false ∧ hasSymptomsMarker l = false ∧ hasHealthMarker l = false ∧
    hasDiagnosisMarker l = false ∧ isSeparatorLine l = false := by
  simp only [plainLine, isMarkerLine, Bool.and_eq_true, Bool.not_eq_true',
    Bool.or_eq_false_iff] at h
  exact ⟨h.1.1.1.1, h.1.1.1.2, h.1.1.2, h.1.2, h.2⟩

theorem session_step {α : Type} (val : α → Text) (s : ScanState α) (x : α)
    (h : isSessionStart (val x) = true) :
    processLine val s x = ⟨pushCurrent s, [x], false, false, false⟩ := by
  simp [processLine, h]

theorem symMarker_step {α : Type} (val : α → Text) (s : ScanState α) (x : α)
    (h0 : isSessionStart (val x) = false) (h1 : hasSymptomsMarker (val x) = true) :
    processLine val s x =
      ⟨s.sections, s.current ++ [x], true, false, false⟩ := by
  simp [processLine, h0, h1]

theorem healthMarker_step {α : Type} (val : α → Text) (s : ScanState α) (x : α)
    (h0 : isSessionStart (val x) = false) (h1 : hasSymptomsMarker (val x) = false)
    (h2 : hasHealthMarker (val x) = true) :
    processLine val s x =
      ⟨s.sections, s.current ++ [x], false, true, false⟩ := by
  simp [processLine, h0, h1, h2]

theorem diag_step {α : Type} (val : α → Text) (s : ScanState α) (x : α)
    (h0 : isSessionStart (val x) = false) (h1 : hasSymptomsMarker (val x) = false)
    (h2 : hasHealthMarker (val x) = false) (h3 : hasDiagnosisMarker (val x) = true) :
    processLine val s x =
      ⟨s.sections, s.current, false, false, true⟩ := by
  simp [processLine, h0, h1, h2, h3]

theorem sep_step {α : Type} (val : α → Text) (s : ScanState α) (x : α)
    (h0 : isMarkerLine (val x) = false) (h1 : isSeparatorLine (val x) = true) :
    processLine val s x = ⟨s.sections, s.current, false, false, false⟩ := by
  simp only [isMarkerLine, Bool.or_eq_false_iff] at h0
  simp [processLine, h0.1.1.1, h0.1.1.2, h0.1.2, h0.2, h1]

theorem plain_append_step {α : Type} (val : α → Text) (s : ScanState α) (x : α)
    (h : plainLine (val x) = true) (hf : s.inSymptoms = true ∨ s.inHealth = true) :
    processLine val s x = { s with current := s.current ++ [x] } := by
  obtain ⟨p0, p1, p2, p3, p4⟩ := plainLine_parts _ h
  have : (s.inSymptoms || s.inHealth) = true := by
    rcases hf with hf | hf <;> simp [hf]
  simp [processLine, p0, p1, p2, p3, p4, this]

theorem plain_noop_step {α : Type} (val : α → Text) (s : ScanState α) (x : α)
    (h : plainLine (val x) = true) (h1 : s.inSymptoms = false) (h2 : s.inHealth = false) :
    processLine val s x = s := by
  obtain ⟨p0, p1, p2, p3, p4⟩ := plainLine_parts _ h
  simp [processLine, p0, p1, p2, p3, p4, h1, h2]

theorem foldl_plain_noop {α : Type} (val : α → Text) (s : ScanState α) (L : List α)
    (h : ∀ x ∈ L, plainLine (val x) = true)
    (h1 : s.inSymptoms = false) (h2 : s.inHealth = false) :
    L.foldl (processLine val) s = s := by
  induction L with
  | nil => rfl
  | cons x xs ih =>
    rw [List.foldl_cons, plain_noop_step val s x (h x (List.mem_cons_self _ _)) h1 h2]
    exact ih (fun y hy => h y (List.mem_cons_of_mem _ hy))

theorem foldl_plain_append {α : Type} (val : α → Text) (s : ScanState α) (L : List α)
    (h : ∀ x ∈ L, plainLine (val x) = true)
    (hf : s.inSymptoms = true ∨ s.inHealth = true) :
    L.foldl (processLine val) s = { s with current := s.current ++ L } := by
  induction L generalizing s with
  | nil => simp
  | cons x xs ih =>
    rw [List.foldl_cons, plain_append_step val s x (h x (List.mem_cons_self _ _)) hf]
    rw [ih _ (fun y hy => h y (List.mem_cons_of_mem _ hy)) (by simpa using hf)]
    simp

/-! ## The line decomposition of a well-formed log -/

theorem joinNl_cons (x : Text) (L : List Text) (h : L ≠ []) :
    joinNl (x :: L) = x ++ '\n' :: joinNl L := by
  cases L with
  | nil => exact absurd rfl h
  | cons y ys => rfl

theorem joinNl_split_append (t : Text) (B : List Text) (hB : B ≠ []) :
    joinNl (splitOnNl t ++ B) = t ++ '\n' :: joinNl B := by
  rw [joinNl_append _ _ (splitOnNl_ne_nil t) hB, joinNl_splitOnNl]

theorem split_append_ne_nil (t : Text) (B : List Text) : splitOnNl t ++ B ≠ [] := by
  simp [splitOnNl_ne_nil]

theorem joinNl_entryLines (e : SessionEntry) (hh : WfHealth e.health) :
    joinNl (entryLines e) ++ ['\n'] = serializeEntry e := by
  cases hhealth : e.health with
  | none =>
    have h1 : entryLines e = [] :: sessionLine e.ts :: [] :: symptomsMarkerTxt ::
        (splitOnNl e.symptoms ++ ([] :: [] :: diagnosisMarkerTxt ::
          (splitOnNl e.output ++ [[], str "---", []]))) := by
      simp [entryLines, hhealth]
    rw [h1]
    rw [joinNl_cons _ _ (by simp), joinNl_cons _ _ (by simp),
        joinNl_cons _ _ (by simp), joinNl_cons _ _ (by simp [split_append_ne_nil])]
    rw [joinNl_split_append _ _ (by simp)]
    rw [joinNl_cons _ _ (by simp), joinNl_cons _ _ (by simp),
        joinNl_cons _ _ (by simp [split_append_ne_nil])]
    rw [joinNl_split_append _ _ (by simp)]
    simp [serializeEntry, sessionEntryText, healthBlock, hhealth, sessionLine,
      symptomsMarkerTxt, diagnosisMarkerTxt, joinNl, str]
  | some hc =>
    have hne : hc ≠ [] := by
      have := hh; rw [hhealth] at this; exact this.1
    have h1 : entryLines e = [] :: sessionLine e.ts :: [] :: symptomsMarkerTxt ::
        (splitOnNl e.symptoms ++ ([] :: healthMarkerTxt ::
          (splitOnNl hc ++ ([] :: diagnosisMarkerTxt ::
            (splitOnNl e.output ++ [[], str "---", []]))))) := by
      simp [entryLines, hhealth]
    rw [h1]
    rw [joinNl_cons _ _ (by simp), joinNl_cons _ _ (by simp),
        joinNl_cons _ _ (by simp), joinNl_cons _ _ (by simp [split_append_ne_nil])]
    rw [joinNl_split_append _ _ (by simp)]
    rw [joinNl_cons _ _ (by simp), joinNl_cons _ _ (by simp [split_append_ne_nil])]
    rw [joinNl_split_append _ _ (by simp)]
    rw [joinNl_cons _ _ (by simp), joinNl_cons _ _ (by simp [split_append_ne_nil])]
    rw [joinNl_split_append _ _ (by simp)]
    simp [serializeEntry, sessionEntryText, healthBlock, hhealth, hne, sessionLine,
      symptomsMarkerTxt, healthMarkerTxt, diagnosisMarkerTxt, joinNl, str]

theorem entryLines_ne_nil (e : SessionEntry) : entryLines e ≠ [] := by
  simp [entryLines]

theorem joinNl_headerLines (uid now : Text) :
    joinNl (headerLines uid now) ++ ['\n'] = initialContent uid now := by
  simp [headerLines, joinNl, initialContent, headerLine0, createdLine, str]

theorem entriesText_eq (es : List SessionEntry) (h : ∀ e ∈ es, WfHealth e.health) :
    (es.map serializeEntry).flatten = joinNl ((es.map entryLines).flatten ++ [[]]) := by
  induction es with
  | nil => simp [joinNl]
  | cons e rest ih =>
    simp only [List.map_cons, List.flatten_cons, List.append_assoc]
    rw [joinNl_append _ _ (entryLines_ne_nil e) (by simp)]
    rw [← ih (fun x hx => h x (List.mem_cons_of_mem _ hx))]
    rw [← joinNl_entryLines e (h e (List.mem_cons_self _ _))]
    simp

theorem mkLog_eq_joinNl (uid now : Text) (es : List SessionEntry)
    (h : ∀ e ∈ es, WfHealth e.health) :
    mkLog uid now es = joinNl (logLines uid now es) := by
  unfold mkLog logLines
  rw [List.append_assoc]
  rw [joinNl_append _ _ (by simp [headerLines]) (by simp)]
  rw [← entriesText_eq es h, ← joinNl_headerLines uid now]
  simp

theorem noNl_str_append (a : String) (t : Text) (ha : '\n' ∉ a.data) (ht : '\n' ∉ t) :
    '\n' ∉ str a ++ t := by
  intro hmem
  rcases List.mem_append.mp hmem with h | h
  · exact ha h
  · exact ht h

theorem entryLines_norm_none (e : SessionEntry) (hh : e.health = none) :
    entryLines e = [] :: sessionLine e.ts :: [] :: symptomsMarkerTxt ::
      (splitOnNl e.symptoms ++ ([] :: [] :: diagnosisMarkerTxt ::
        (splitOnNl e.output ++ [[], str "---", []]))) := by
  simp [entryLines, hh]

theorem entryLines_norm_some (e : SessionEntry) (hc : Text) (hh : e.health = some hc) :
    entryLines e = [] :: sessionLine e.ts :: [] :: symptomsMarkerTxt ::
      (splitOnNl e.symptoms ++ ([] :: healthMarkerTxt ::
        (splitOnNl hc ++ ([] :: diagnosisMarkerTxt ::
          (splitOnNl e.output ++ [[], str "---", []]))))) := by
  simp [entryLines, hh]

theorem noNl_entryLines (e : SessionEntry) (hwfe : WfEntry e) :
    ∀ l ∈ entryLines e, '\n' ∉ l := by
  intro l hl
  cases hh : e.health with
  | none =>
    rw [entryLines_norm_none e hh] at hl
    simp only [List.mem_cons, List.mem_append, List.mem_singleton] at hl
    rcases hl with h | h | h | h | h | h | h | h | h | h | h | h | h
    all_goals first
      | exact noNl_splitOnNl _ _ h
      | (subst h; first
          | decide
          | (rw [sessionLine]; exact noNl_str_append _ _ (by decide) hwfe.1))
      | (cases h)
  | some hc =>
    rw [entryLines_norm_some e hc hh] at hl
    simp only [List.mem_cons, List.mem_append, List.mem_singleton] at hl
    rcases hl with h | h | h | h | h | h | h | h | h | h | h | h | h | h | h
    all_goals first
      | exact noNl_splitOnNl _ _ h
      | (subst h; first
          | decide
          | (rw [sessionLine]; exact noNl_str_append _ _ (by decide) hwfe.1))
      | (cases h)

theorem splitOnNl_mkLog (uid now : Text) (es : List SessionEntry)
    (hwf : WfLog uid now es) :
    splitOnNl (mkLog uid now es) = logLines uid now es := by
  obtain ⟨hu, hn, _, _, hes⟩ := hwf
  rw [mkLog_eq_joinNl uid now es (fun e he => (hes e he).2.2.2)]
  apply splitOnNl_joinNl
  · simp [logLines, headerLines]
  · intro l hl
    simp only [logLines, List.mem_append] at hl
    rcases hl with (hl | hl) | hl
    · simp only [headerLines, List.mem_cons, List.mem_singleton] at hl
      rcases hl with h | h | h | h | h | h | h | h | h
      · exact h ▸ noNl_str_append _ _ (by decide) hu
      · subst h; intro hc; cases hc
      · exact h ▸ noNl_str_append _ _ (by decide) hn
      · subst h; intro hc; cases hc
      · exact h ▸ (by decide)
      · subst h; intro hc; cases hc
      · exact h ▸ (by decide)
      · subst h; intro hc; cases hc
      · cases h
    · rw [List.mem_flatten] at hl
      obtain ⟨ls, hls, hlin⟩ := hl
      rw [List.mem_map] at hls
      obtain ⟨e, he, rfl⟩ := hls
      exact noNl_entryLines e (hes e he) l hlin
    · rcases List.mem_singleton.mp hl with rfl
      intro hc; cases hc

/-! ## Scanning a well-formed log -/

theorem isPrefixTxt_self_append (p r : Text) : isPrefixTxt p (p ++ r) = true := by
  induction p with
  | nil => rfl
  | cons c cs ih => simp [isPrefixTxt, ih]

theorem plain_nil : plainLine ([] : Text) = true := by decide

theorem isSessionStart_sessionLine (ts : Text) :
    isSessionStart (sessionLine ts) = true := by
  have : sessionLine ts = sessionPat ++ (' ' :: ts) := by
    simp [sessionLine, sessionPat, str]
  rw [isSessionStart, this, isPrefixTxt_self_append]

theorem isS_nil : isSessionStart ([] : Text) = false := by decide
theorem hasSym_nil : hasSymptomsMarker ([] : Text) = false := by decide
theorem hasH_nil : hasHealthMarker ([] : Text) = false := by decide
theorem hasD_nil : hasDiagnosisMarker ([] : Text) = false := by decide
theorem isSep_nil : isSeparatorLine ([] : Text) = false := by decide
theorem isS_symM : isSessionStart symptomsMarkerTxt = false := by decide
theorem hasSym_symM : hasSymptomsMarker symptomsMarkerTxt = true := by decide
theorem isS_hM : isSessionStart healthMarkerTxt = false := by decide
theorem hasSym_hM : hasSymptomsMarker healthMarkerTxt = false := by decide
theorem hasH_hM : hasHealthMarker healthMarkerTxt = true := by decide
theorem isS_dM : isSessionStart diagnosisMarkerTxt = false := by decide
theorem hasSym_dM : hasSymptomsMarker diagnosisMarkerTxt = false := by decide
theorem hasH_dM : hasHealthMarker diagnosisMarkerTxt = false := by decide
theorem hasD_dM : hasDiagnosisMarker diagnosisMarkerTxt = true := by decide
theorem isS_dash : isSessionStart (str "---") = false := by decide
theorem hasSym_dash : hasSymptomsMarker (str "---") = false := by decide
theorem hasH_dash : hasHealthMarker (str "---") = false := by decide
theorem hasD_dash : hasDiagnosisMarker (str "---") = false := by decide
theorem isSep_dash : isSeparatorLine (str "---") = true := by decide
theorem cls_ssh : plainLine (str "## Session History") = true := by decide

theorem scan_headerLines (uid now : Text) (h0 : plainLine (headerLine0 uid) = true)
    (h2 : plainLine (createdLine now) = true) :
    List.foldl (processLine id) initScan (headerLines uid now) = initScan := by
  obtain ⟨a0, a1, a2, a3, a4⟩ := plainLine_parts _ h0
  obtain ⟨b0, b1, b2, b3, b4⟩ := plainLine_parts _ h2
  obtain ⟨c0, c1, c2, c3, c4⟩ := plainLine_parts _ cls_ssh
  simp [headerLines, initScan, processLine, pushCurrent,
    a0, a1, a2, a3, a4, b0, b1, b2, b3, b4, c0, c1, c2, c3, c4,
    isS_nil, hasSym_nil, hasH_nil, hasD_nil, isSep_nil,
    isS_dash, hasSym_dash, hasH_dash, hasD_dash, isSep_dash]

theorem foldl_plain_append_sym {α : Type} (val : α → Text) (secs : List (List α))
    (cur : List α) (b3 : Bool) (L : List α) (h : ∀ x ∈ L, plainLine (val x) = true) :
    L.foldl (processLine val) ⟨secs, cur, true, false, b3⟩ = ⟨secs, cur ++ L, true, false, b3⟩ :=
  foldl_plain_append val _ L h (Or.inl rfl)

theorem foldl_plain_append_health {α : Type} (val : α → Text) (secs : List (List α))
    (cur : List α) (b3 : Bool) (L : List α) (h : ∀ x ∈ L, plainLine (val x) = true) :
    L.foldl (processLine val) ⟨secs, cur, false, true, b3⟩ = ⟨secs, cur ++ L, false, true, b3⟩ :=
  foldl_plain_append val _ L h (Or.inr rfl)

theorem foldl_plain_noop_mk {α : Type} (val : α → Text) (secs : List (List α))
    (cur : List α) (b3 : Bool) (L : List α) (h : ∀ x ∈ L, plainLine (val x) = true) :
    L.foldl (processLine val) ⟨secs, cur, false, false, b3⟩ = ⟨secs, cur, false, false, b3⟩ :=
  foldl_plain_noop val _ L h rfl rfl

theorem scan_prefix4 (secs : List (List Text)) (cur : List Text) (ts : Text) (L : List Text) :
    List.foldl (processLine id) ⟨secs, cur, false, false, false⟩
        ([] :: sessionLine ts :: [] :: symptomsMarkerTxt :: L)
      = List.foldl (processLine id)
          ⟨pushCurrent ⟨secs, cur, false, false, false⟩,
            [sessionLine ts, symptomsMarkerTxt], true, false, false⟩ L := by
  simp only [List.foldl_cons]
  congr 1

theorem scan_gap_diag (secs : List (List Text)) (cur : List Text) (L : List Text) :
    List.foldl (processLine id) ⟨secs, cur, true, false, false⟩
        ([] :: [] :: diagnosisMarkerTxt :: L)
      = List.foldl (processLine id) ⟨secs, cur ++ [[], []], false, false, true⟩ L := by
  simp only [List.foldl_cons]
  congr 1
  all_goals simp [processLine,
    isS_nil, hasSym_nil, hasH_nil, hasD_nil, isSep_nil,
    isS_dM, hasSym_dM, hasH_dM, hasD_dM]

theorem scan_gap_health (secs : List (List Text)) (cur : List Text) (L : List Text) :
    List.foldl (processLine id) ⟨secs, cur, true, false, false⟩
        ([] :: healthMarkerTxt :: L)
      = List.foldl (processLine id)
          ⟨secs, cur ++ [[], healthMarkerTxt], false, true, false⟩ L := by
  simp only [List.foldl_cons]
  congr 1
  all_goals simp [processLine,
    isS_nil, hasSym_nil, hasH_nil, hasD_nil, isSep_nil, isS_hM, hasSym_hM, hasH_hM]

theorem scan_health_diag (secs : List (List Text)) (cur : List Text) (L : List Text) :
    List.foldl (processLine id) ⟨secs, cur, false, true, false⟩
        ([] :: diagnosisMarkerTxt :: L)
      = List.foldl (processLine id) ⟨secs, cur ++ [[]], false, false, true⟩ L := by
  simp only [List.foldl_cons]
  congr 1

theorem scan_entry_tail (secs : List (List Text)) (cur : List Text) :
    List.foldl (processLine id) ⟨secs, cur, false, false, true⟩ [[], str "---", []]
      = ⟨secs, cur, false, false, false⟩ := by
  simp [processLine,
    isS_nil, hasSym_nil, hasH_nil, hasD_nil, isSep_nil,
    isS_dash, hasSym_dash, hasH_dash, hasD_dash, isSep_dash]

theorem scan_entryLines (e : SessionEntry) (hwfe : WfEntry e)
    (secs : List (List Text)) (cur : List Text) :
    List.foldl (processLine id) ⟨secs, cur, false, false, false⟩ (entryLines e)
      = ⟨pushCurrent ⟨secs, cur, false, false, false⟩, entryBlock e,
          false, false, false⟩ := by
  have hsym : ∀ x ∈ splitOnNl e.symptoms, plainLine (id x) = true := fun x hx => hwfe.2.1 x hx
  have hout : ∀ x ∈ splitOnNl e.output, plainLine (id x) = true := fun x hx => hwfe.2.2.1 x hx
  cases hh : e.health with
  | none =>
    rw [entryLines_norm_none e hh, scan_prefix4, List.foldl_append,
      foldl_plain_append_sym id _ _ _ _ hsym, scan_gap_diag, List.foldl_append,
      foldl_plain_noop_mk id _ _ _ _ hout, scan_entry_tail]
    simp [entryBlock, hh]
  | some hc =>
    have hhc : ∀ x ∈ splitOnNl hc, plainLine (id x) = true := by
      have := hwfe.2.2.2
      rw [hh] at this
      exact fun x hx => this.2 x hx
    rw [entryLines_norm_some e hc hh, scan_prefix4, List.foldl_append,
      foldl_plain_append_sym id _ _ _ _ hsym, scan_gap_health, List.foldl_append,
      foldl_plain_append_health id _ _ _ _ hhc, scan_health_diag, List.foldl_append,
      foldl_plain_noop_mk id _ _ _ _ hout, scan_entry_tail]
    simp [entryBlock, hh]


theorem pushCurrent_mk (secs : List (List Text)) (cur : List Text) (b1 b2 b3 : Bool) :
    pushCurrent ⟨secs, cur, b1, b2, b3⟩ = pushCur secs cur := rfl


theorem entryBlock_ne_nil (e : SessionEntry) : (entryBlock e).isEmpty = false := by
  simp [entryBlock]

theorem scan_entries (es : List SessionEntry) (h : ∀ e ∈ es, WfEntry e) :
    ∀ secs cur,
    List.foldl (processLine id) ⟨secs, cur, false, false, false⟩ ((es.map entryLines).flatten)
      = ⟨(foldBlocks secs cur es).1, (foldBlocks secs cur es).2, false, false, false⟩ := by
  induction es with
  | nil => intro secs cur; rfl
  | cons e rest ih =>
    intro secs cur
    simp only [List.map_cons, List.flatten_cons]
    rw [List.foldl_append]
    rw [scan_entryLines e (h e (List.mem_cons_self _ _)) secs cur]
    rw [pushCurrent_mk]
    rw [ih (fun x hx => h x (List.mem_cons_of_mem _ hx))]
    rfl

theorem pushCur_foldBlocks (es : List SessionEntry) :
    ∀ secs cur, pushCur (foldBlocks secs cur es).1 (foldBlocks secs cur es).2
      = pushCur secs cur ++ es.map entryBlock := by
  induction es with
  | nil => intro secs cur; simp [foldBlocks]
  | cons e rest ih =>
    intro secs cur
    simp only [foldBlocks, List.map_cons]
    rw [ih]
    have : pushCur (pushCur secs cur) (entryBlock e) = pushCur secs cur ++ [entryBlock e] := by
      simp [pushCur, entryBlock_ne_nil]
    rw [this]
    simp

theorem userSections_logLines (uid now : Text) (es : List SessionEntry)
    (hwf : WfLog uid now es) :
    userSections (logLines uid now es) = es.map entryBlock := by
  obtain ⟨_, _, h0, h2, hes⟩ := hwf
  unfold userSections finalSections scanLines logLines
  rw [List.foldl_append, List.foldl_append]
  rw [scan_headerLines _ _ h0 h2]
  rw [show (initScan : ScanState Text) = ⟨[], [], false, false, false⟩ from rfl]
  rw [scan_entries es hes [] []]
  rw [show ([[]] : List Text).foldl (processLine id)
        ⟨(foldBlocks [] [] es).1, (foldBlocks [] [] es).2, false, false, false⟩
      = ⟨(foldBlocks [] [] es).1, (foldBlocks [] [] es).2, false, false, false⟩ from
    foldl_plain_noop_mk id _ _ _ _ (by intro x hx; rw [List.mem_singleton.mp hx]; exact plain_nil)]
  have hflush : ∀ (secs : List (List Text)) (cur : List Text),
      (if ((⟨secs, cur, false, false, false⟩ : ScanState Text).current.isEmpty = false ∧
            (⟨secs, cur, false, false, false⟩ : ScanState Text).inDiagnosis = false)
        then secs ++ [cur] else secs) = pushCur secs cur := by
    intro secs cur
    by_cases hc : cur.isEmpty
    · simp [hc, pushCur]
    · simp [hc, pushCur]
  rw [hflush]
  rw [pushCur_foldBlocks]
  rfl

theorem headerLine0_split (uid : Text) :
    headerLine0 uid = str "# Medical History" ++ (str " - User " ++ uid) := by
  simp [headerLine0, str]

theorem createdLine_split (now : Text) :
    createdLine now = str "**Created:**" ++ (' ' :: now) := by
  simp [createdLine, str]

theorem headerOf_mkLog (uid now : Text) (es : List SessionEntry)
    (hwf : WfLog uid now es) :
    headerOf (mkLog uid now es) = headerText uid now := by
  unfold headerOf
  rw [splitOnNl_mkLog _ _ _ hwf]
  have hlog : logLines uid now es = headerLine0 uid :: [] :: createdLine now ::
      ([] :: str "---" :: [] :: str "## Session History" :: [] ::
        ((es.map entryLines).flatten ++ [[]])) := by
    simp [logLines, headerLines]
  rw [hlog]
  have hp0 : isPrefixTxt (str "# Medical History") (headerLine0 uid) = true := by
    rw [headerLine0_split, isPrefixTxt_self_append]
  have hp2 : isPrefixTxt (str "**Created:**") (createdLine now) = true := by
    rw [createdLine_split, isPrefixTxt_self_append]
  simp [hp0, hp2, headerText]

/-- The Provenance Filter on a well-formed log computes `expectedFiltered`. -/
theorem extract_mkLog (uid now : Text) (es : List SessionEntry)
    (hwf : WfLog uid now es) :
    extractUserProvidedHistory (mkLog uid now es) = expectedFiltered uid now es := by
  unfold extractUserProvidedHistory
  rw [splitOnNl_mkLog _ _ _ hwf, userSections_logLines _ _ _ hwf,
    headerOf_mkLog _ _ _ hwf]
  unfold expectedFiltered
  by_cases hes : es = []
  · simp [hes]
  · simp [hes, List.map_eq_nil_iff]

/-! ## Containment of user-asserted fields in the filtered view -/

theorem hasInfixTxt_of_prefix (pat l : Text) (h : isPrefixTxt pat l = true) :
    hasInfixTxt pat l = true := by
  cases l with
  | nil => simpa [hasInfixTxt] using h
  | cons c t => simp [hasInfixTxt, h]

theorem hasInfixTxt_of_parts (pat : Text) : ∀ (u v l : Text),
    l = u ++ pat ++ v → hasInfixTxt pat l = true := by
  intro u
  induction u with
  | nil =>
    intro v l hl
    subst hl
    exact hasInfixTxt_of_prefix _ _ (by simpa using isPrefixTxt_self_append pat v)
  | cons c u ih =>
    intro v l hl
    subst hl
    have htail := ih v (u ++ pat ++ v) rfl
    simp only [List.cons_append, hasInfixTxt, List.append_eq] at *
    rw [htail]
    simp

theorem joinWith_mem_parts (sep : Text) (L : List Text) (x : Text) (hx : x ∈ L) :
    ∃ u v, joinWith sep L = u ++ x ++ v := by
  induction L with
  | nil => cases hx
  | cons b bs ih =>
    cases bs with
    | nil =>
      rcases List.mem_singleton.mp hx with rfl
      exact ⟨[], [], by simp [joinWith]⟩
    | cons b2 bs2 =>
      rcases List.mem_cons.mp hx with rfl | hx2
      · exact ⟨[], sep ++ joinWith sep (b2 :: bs2), by simp [joinWith]⟩
      · obtain ⟨u, v, hu⟩ := ih hx2
        exact ⟨b ++ sep ++ u, v, by simp [joinWith, hu]⟩

theorem parts_shape1 (a b mid j : Text) :
    ∃ u v, a ++ '\n' :: (b ++ '\n' :: (mid ++ '\n' :: j)) = u ++ mid ++ v :=
  ⟨a ++ '\n' :: b ++ ['\n'], '\n' :: j, by simp⟩

theorem parts_shape2 (a b s hm mid j : Text) :
    ∃ u v, a ++ '\n' :: (b ++ '\n' :: (s ++ '\n' :: ('\n' :: (hm ++ '\n' :: (mid ++ '\n' :: j)))))
      = u ++ mid ++ v :=
  ⟨a ++ '\n' :: b ++ '\n' :: s ++ '\n' :: '\n' :: hm ++ ['\n'], '\n' :: j, by simp⟩

theorem entryBlock_sym_parts (e : SessionEntry) :
    ∃ u v, joinNl (entryBlock e) = u ++ e.symptoms ++ v := by
  have hb : entryBlock e = sessionLine e.ts :: symptomsMarkerTxt ::
      (splitOnNl e.symptoms ++ ([[]] ++ (match e.health with
        | some h => [healthMarkerTxt] ++ splitOnNl h
        | none => []) ++ [[]])) := by
    simp [entryBlock]
  rw [hb]
  rw [joinNl_cons _ _ (by simp [split_append_ne_nil]),
      joinNl_cons _ _ (by simp [split_append_ne_nil])]
  rw [joinNl_split_append _ _ (by cases e.health <;> simp)]
  exact parts_shape1 _ _ _ _

theorem entryBlock_health_parts (e : SessionEntry) (h : Text) (hh : e.health = some h) :
    ∃ u v, joinNl (entryBlock e) = u ++ h ++ v := by
  have hb : entryBlock e = sessionLine e.ts :: symptomsMarkerTxt ::
      (splitOnNl e.symptoms ++ ([] :: healthMarkerTxt ::
        (splitOnNl h ++ [[]]))) := by
    simp [entryBlock, hh]
  rw [hb]
  rw [joinNl_cons _ _ (by simp [split_append_ne_nil]),
      joinNl_cons _ _ (by simp [split_append_ne_nil])]
  rw [joinNl_split_append _ _ (by simp)]
  rw [show (([] : Text) :: healthMarkerTxt :: (splitOnNl h ++ [[]])) =
      [] :: healthMarkerTxt :: (splitOnNl h ++ [[]]) from rfl]
  rw [joinNl_cons _ _ (by simp), joinNl_cons _ _ (by simp [split_append_ne_nil])]
  rw [joinNl_split_append _ _ (by simp)]
  simpa using parts_shape2 (sessionLine e.ts) symptomsMarkerTxt e.symptoms
    healthMarkerTxt h (joinNl [[]])

theorem expectedFiltered_parts (uid now : Text) (es : List SessionEntry)
    (e : SessionEntry) (he : e ∈ es) (piece : Text)
    (hpiece : ∃ u v, joinNl (entryBlock e) = u ++ piece ++ v) :
    hasInfixTxt piece (expectedFiltered uid now es) = true := by
  have hne : es ≠ [] := fun hnil => by subst hnil; cases he
  obtain ⟨u, v, huv⟩ := hpiece
  have hmem : joinNl (entryBlock e) ∈ (es.map entryBlock).map joinNl :=
    List.mem_map_of_mem _ (List.mem_map_of_mem _ he)
  obtain ⟨u2, v2, huv2⟩ := joinWith_mem_parts (str "\n\n---\n\n") _ _ hmem
  unfold expectedFiltered
  rw [if_neg hne]
  apply hasInfixTxt_of_parts piece
    (headerText uid now ++ str "\n\n---\n\n## Session History\n\n" ++ u2 ++ u)
    (v ++ v2 ++ str "\n\n")
  rw [huv2, huv]
  simp

/-! ## The filtered view does not depend on the model output -/

theorem entryBlock_eraseOutput (e : SessionEntry) :
    entryBlock (eraseOutput e) = entryBlock e := rfl

theorem map_entryBlock_of_erase (es es' : List SessionEntry)
    (h : es.map eraseOutput = es'.map eraseOutput) :
    es.map entryBlock = es'.map entryBlock := by
  have h1 : es.map entryBlock = (es.map eraseOutput).map entryBlock := by
    rw [List.map_map]
    simp [Function.comp_def, entryBlock_eraseOutput]
  have h2 : es'.map entryBlock = (es'.map eraseOutput).map entryBlock := by
    rw [List.map_map]
    simp [Function.comp_def, entryBlock_eraseOutput]
  rw [h1, h2, h]

theorem expectedFiltered_of_erase (uid now : Text) (es es' : List SessionEntry)
    (h : es.map eraseOutput = es'.map eraseOutput) :
    expectedFiltered uid now es = expectedFiltered uid now es' := by
  have hlen : es.length = es'.length := by
    have := congrArg List.length h
    simpa using this
  have hnil : es = [] ↔ es' = [] := by
    constructor
    · intro hx; subst hx; exact List.length_eq_zero.mp (by simpa using hlen.symm)
    · intro hx; subst hx; exact List.length_eq_zero.mp (by simpa using hlen)
  unfold expectedFiltered
  rw [map_entryBlock_of_erase es es' h]
  by_cases hes : es = []
  · rw [if_pos hes, if_pos (hnil.mp hes)]
  · rw [if_neg hes, if_neg (fun hx => hes (hnil.mpr hx))]

/-! ## Line decomposition of a filtered view -/

theorem entryBlock_ne_nil' (e : SessionEntry) : entryBlock e ≠ [] := by
  simp [entryBlock]

theorem interBlocks_ne_nil (b : List Text) (bs : List (List Text)) (hb : b ≠ []) :
    interBlocks (b :: bs) ≠ [] := by
  cases bs with
  | nil => simpa [interBlocks] using hb
  | cons b2 bs2 => simp [interBlocks, hb]

theorem joinWith_interBlocks (blocks : List (List Text))
    (hne : blocks ≠ []) (hbs : ∀ b ∈ blocks, b ≠ []) :
    joinWith (str "\n\n---\n\n") (blocks.map joinNl) = joinNl (interBlocks blocks) := by
  induction blocks with
  | nil => exact absurd rfl hne
  | cons b bs ih =>
    cases bs with
    | nil => simp [joinWith, interBlocks]
    | cons b2 bs2 =>
      have hb2 : b2 ≠ [] := hbs b2 (by simp)
      have step : joinWith (str "\n\n---\n\n") (List.map joinNl (b :: b2 :: bs2))
          = joinNl b ++ str "\n\n---\n\n"
            ++ joinWith (str "\n\n---\n\n") (List.map joinNl (b2 :: bs2)) := by
        simp [joinWith]
      rw [step, ih (by simp) (fun x hx => hbs x (List.mem_cons_of_mem _ hx))]
      simp only [interBlocks]
      rw [joinNl_append _ _ (hbs b (List.mem_cons_self _ _))
        (by simp [sepPadLines])]
      rw [show (sepPadLines ++ interBlocks (b2 :: bs2)) =
        [] :: str "---" :: [] :: interBlocks (b2 :: bs2) from by simp [sepPadLines]]
      rw [joinNl_cons _ _ (by simp), joinNl_cons _ _ (by simp),
        joinNl_cons _ _ (interBlocks_ne_nil b2 bs2 hb2)]
      simp [str]

theorem expectedFiltered_nil (uid now : Text) :
    expectedFiltered uid now [] = initialContent uid now := by
  simp [expectedFiltered, headerText, initialContent, headerLine0, createdLine, str]

theorem mkLog_nil (uid now : Text) : mkLog uid now [] = initialContent uid now := by
  simp [mkLog]

theorem expectedFiltered_joinNl (uid now : Text) (es : List SessionEntry)
    (hne : es ≠ []) :
    expectedFiltered uid now es
      = joinNl (headerLines uid now ++ (interBlocks (es.map entryBlock) ++ [[], []])) := by
  have hblocks : (es.map entryBlock) ≠ [] := by simpa using hne
  have hbs : ∀ b ∈ es.map entryBlock, b ≠ [] := by
    intro b hb
    obtain ⟨e, _, rfl⟩ := List.mem_map.mp hb
    exact entryBlock_ne_nil' e
  obtain ⟨b0, bs, hb0⟩ : ∃ b0 bs, es.map entryBlock = b0 :: bs := by
    cases hbm : es.map entryBlock with
    | nil => exact absurd hbm hblocks
    | cons x xs => exact ⟨x, xs, rfl⟩
  rw [joinNl_append _ _ (by simp [headerLines]) (by simp)]
  rw [joinNl_append _ _ (by rw [hb0]; exact interBlocks_ne_nil _ _ (hbs b0 (by rw [hb0]; simp)))
    (by simp)]
  rw [← joinWith_interBlocks _ hblocks hbs]
  unfold expectedFiltered
  rw [if_neg hne]
  simp [headerLines, joinNl, headerText, headerLine0, createdLine, str]

theorem noNl_entryBlock (e : SessionEntry) (hwfe : WfEntry e) :
    ∀ l ∈ entryBlock e, '\n' ∉ l := by
  intro l hl
  cases hh : e.health with
  | none =>
    have hb : entryBlock e = sessionLine e.ts :: symptomsMarkerTxt ::
        (splitOnNl e.symptoms ++ [[], []]) := by
      simp [entryBlock, hh]
    rw [hb] at hl
    simp only [List.mem_cons, List.mem_append, List.mem_singleton] at hl
    rcases hl with h | h | h | h | h | h
    all_goals first
      | exact noNl_splitOnNl _ _ h
      | (subst h; first
          | decide
          | (rw [sessionLine]; exact noNl_str_append _ _ (by decide) hwfe.1))
      | (cases h)
  | some hc =>
    have hb : entryBlock e = sessionLine e.ts :: symptomsMarkerTxt ::
        (splitOnNl e.symptoms ++ ([] :: healthMarkerTxt :: (splitOnNl hc ++ [[]]))) := by
      simp [entryBlock, hh]
    rw [hb] at hl
    simp only [List.mem_cons, List.mem_append, List.mem_singleton] at hl
    rcases hl with h | h | h | h | h | h | h | h
    all_goals first
      | exact noNl_splitOnNl _ _ h
      | (subst h; first
          | decide
          | (rw [sessionLine]; exact noNl_str_append _ _ (by decide) hwfe.1))
      | (cases h)

theorem mem_interBlocks (l : Text) : ∀ (blocks : List (List Text)),
    l ∈ interBlocks blocks → (∃ b ∈ blocks, l ∈ b) ∨ l ∈ sepPadLines := by
  intro blocks
  induction blocks with
  | nil => intro h; cases h
  | cons b bs ih =>
    cases bs with
    | nil =>
      intro h
      exact Or.inl ⟨b, by simp, by simpa [interBlocks] using h⟩
    | cons b2 bs2 =>
      intro h
      simp only [interBlocks, List.mem_append] at h
      rcases h with h | h | h
      · exact Or.inl ⟨b, by simp, h⟩
      · exact Or.inr h
      · rcases ih h with ⟨bx, hbx, hlx⟩ | hsep
        · exact Or.inl ⟨bx, List.mem_cons_of_mem _ hbx, hlx⟩
        · exact Or.inr hsep

theorem splitOnNl_expectedFiltered (uid now : Text) (es : List SessionEntry)
    (hwf : WfLog uid now es) (hne : es ≠ []) :
    splitOnNl (expectedFiltered uid now es)
      = headerLines uid now ++ (interBlocks (es.map entryBlock) ++ [[], []]) := by
  obtain ⟨hu, hn, _, _, hes⟩ := hwf
  rw [expectedFiltered_joinNl uid now es hne]
  apply splitOnNl_joinNl
  · simp [headerLines]
  · intro l hl
    simp only [List.mem_append] at hl
    rcases hl with hl | hl | hl
    · simp only [headerLines, List.mem_cons, List.mem_singleton] at hl
      rcases hl with h | h | h | h | h | h | h | h | h
      · exact h ▸ noNl_str_append _ _ (by decide) hu
      · subst h; intro hc; cases hc
      · exact h ▸ noNl_str_append _ _ (by decide) hn
      · subst h; intro hc; cases hc
      · exact h ▸ (by decide)
      · subst h; intro hc; cases hc
      · exact h ▸ (by decide)
      · subst h; intro hc; cases hc
      · cases h
    · rcases mem_interBlocks l _ hl with ⟨b, hb, hlb⟩ | hsep
      · obtain ⟨e, he, rfl⟩ := List.mem_map.mp hb
        exact noNl_entryBlock e (hes e he) l hlb
      · simp only [sepPadLines, List.mem_cons, List.mem_singleton] at hsep
        rcases hsep with h | h | h | h
        · subst h; intro hc; cases hc
        · exact h ▸ (by decide)
        · subst h; intro hc; cases hc
        · cases h
    · simp only [List.mem_cons, List.mem_singleton] at hl
      rcases hl with h | h | h
      · subst h; intro hc; cases hc
      · subst h; intro hc; cases hc
      · cases h

theorem headerOf_of_lines (md uid now : Text) (rest : List Text)
    (h : splitOnNl md = headerLine0 uid :: [] :: createdLine now :: rest) :
    headerOf md = headerText uid now := by
  unfold headerOf
  rw [h]
  have hp0 : isPrefixTxt (str "# Medical History") (headerLine0 uid) = true := by
    rw [headerLine0_split, isPrefixTxt_self_append]
  have hp2 : isPrefixTxt (str "**Created:**") (createdLine now) = true := by
    rw [createdLine_split, isPrefixTxt_self_append]
  simp [hp0, hp2, headerText]

/-! ## Re-scanning a filtered view -/

theorem session_step_mk (secs : List (List Text)) (cur : List Text) (b1 b2 b3 : Bool)
    (ts : Text) :
    processLine id ⟨secs, cur, b1, b2, b3⟩ (sessionLine ts)
      = ⟨pushCur secs cur, [sessionLine ts], false, false, false⟩ := by
  rw [session_step id ⟨secs, cur, b1, b2, b3⟩ (sessionLine ts) (isSessionStart_sessionLine ts),
    pushCurrent_mk]

theorem symMarker_step_mk (secs : List (List Text)) (cur : List Text) (b1 b2 b3 : Bool) :
    processLine id ⟨secs, cur, b1, b2, b3⟩ symptomsMarkerTxt
      = ⟨secs, cur ++ [symptomsMarkerTxt], true, false, false⟩ :=
  symMarker_step id ⟨secs, cur, b1, b2, b3⟩ symptomsMarkerTxt (by decide) (by decide)

theorem plain_two_nils : ∀ x ∈ ([[], []] : List Text), plainLine (id x) = true := by
  intro x hx
  rcases List.mem_cons.mp hx with rfl | hx
  · exact plain_nil
  · rcases List.mem_singleton.mp hx with rfl
    exact plain_nil

theorem plain_one_nil : ∀ x ∈ ([[]] : List Text), plainLine (id x) = true := by
  intro x hx
  rcases List.mem_singleton.mp hx with rfl
  exact plain_nil

theorem foldl_plain_append_mk {α : Type} (val : α → Text) (secs : List (List α))
    (cur : List α) (f1 f2 b3 : Bool) (hf : f1 = true ∨ f2 = true) (L : List α)
    (h : ∀ x ∈ L, plainLine (val x) = true) :
    L.foldl (processLine val) ⟨secs, cur, f1, f2, b3⟩ = ⟨secs, cur ++ L, f1, f2, b3⟩ :=
  foldl_plain_append val _ L h (by simpa using hf)

theorem scan_entryBlock (e : SessionEntry) (hwfe : WfEntry e)
    (secs : List (List Text)) (cur : List Text) :
    ∃ f1 f2 : Bool, (f1 = true ∨ f2 = true) ∧
      List.foldl (processLine id) ⟨secs, cur, false, false, false⟩ (entryBlock e)
        = ⟨pushCur secs cur, entryBlock e, f1, f2, false⟩ := by
  have hsym : ∀ x ∈ splitOnNl e.symptoms, plainLine (id x) = true := fun x hx => hwfe.2.1 x hx
  cases hh : e.health with
  | none =>
    refine ⟨true, false, Or.inl rfl, ?_⟩
    have hb : entryBlock e = sessionLine e.ts :: symptomsMarkerTxt ::
        (splitOnNl e.symptoms ++ [[], []]) := by
      simp [entryBlock, hh]
    rw [hb]
    simp only [List.foldl_cons]
    rw [session_step_mk, symMarker_step_mk]
    rw [List.foldl_append]
    rw [foldl_plain_append_sym id _ _ _ _ hsym]
    rw [foldl_plain_append_sym id _ _ _ _ plain_two_nils]
    simp
  | some hc =>
    have hhc : ∀ x ∈ splitOnNl hc, plainLine (id x) = true := by
      have := hwfe.2.2.2
      rw [hh] at this
      exact fun x hx => this.2 x hx
    refine ⟨false, true, Or.inr rfl, ?_⟩
    have hb : entryBlock e = sessionLine e.ts :: symptomsMarkerTxt ::
        (splitOnNl e.symptoms ++ ([] :: healthMarkerTxt :: (splitOnNl hc ++ [[]]))) := by
      simp [entryBlock, hh]
    rw [hb]
    simp only [List.foldl_cons]
    rw [session_step_mk, symMarker_step_mk]
    rw [List.foldl_append]
    rw [foldl_plain_append_sym id _ _ _ _ hsym]
    rw [scan_gap_health]
    rw [List.foldl_append]
    rw [foldl_plain_append_health id _ _ _ _ hhc]
    rw [foldl_plain_append_health id _ _ _ _ plain_one_nil]
    simp

theorem scan_sepPad (secs : List (List Text)) (cur : List Text) (f1 f2 : Bool)
    (hf : f1 = true ∨ f2 = true) (L : List Text) :
    List.foldl (processLine id) ⟨secs, cur, f1, f2, false⟩ (sepPadLines ++ L)
      = List.foldl (processLine id) ⟨secs, cur ++ [[]], false, false, false⟩ L := by
  have h1 : processLine id ⟨secs, cur, f1, f2, false⟩ ([] : Text)
      = ⟨secs, cur ++ [[]], f1, f2, false⟩ :=
    plain_append_step id _ _ plain_nil (by simpa using hf)
  have h2 : processLine id ⟨secs, cur ++ [[]], f1, f2, false⟩ (str "---")
      = ⟨secs, cur ++ [[]], false, false, false⟩ :=
    sep_step id _ _ (by decide) (by decide)
  have h3 : processLine id ⟨secs, cur ++ [[]], false, false, false⟩ ([] : Text)
      = ⟨secs, cur ++ [[]], false, false, false⟩ :=
    plain_noop_step id _ _ plain_nil rfl rfl
  rw [show sepPadLines ++ L = [] :: str "---" :: [] :: L from by simp [sepPadLines]]
  simp only [List.foldl_cons]
  rw [h1, h2, h3]

theorem scan_inter_blocks (es : List SessionEntry) :
    ∀ e, WfEntry e → (∀ x ∈ es, WfEntry x) → ∀ secs cur,
    ∃ fsecs fcur, ∃ f1 f2 : Bool,
      List.foldl (processLine id) ⟨secs, cur, false, false, false⟩
          (interBlocks (List.map entryBlock (e :: es)) ++ [[], []])
        = ⟨fsecs, fcur, f1, f2, false⟩
      ∧ fcur ≠ []
      ∧ pushCur fsecs fcur = pushCur secs cur ++ padBlocks (List.map entryBlock (e :: es)) := by
  induction es with
  | nil =>
    intro e hwfe _ secs cur
    obtain ⟨f1, f2, hf, hfold⟩ := scan_entryBlock e hwfe secs cur
    refine ⟨pushCur secs cur, entryBlock e ++ [[], []], f1, f2, ?_, by simp, ?_⟩
    · rw [show interBlocks (List.map entryBlock [e]) ++ [[], []]
          = entryBlock e ++ [[], []] from by simp [interBlocks]]
      rw [List.foldl_append, hfold]
      rw [foldl_plain_append_mk id _ _ _ _ _ hf _ plain_two_nils]
    · have hp : pushCur (pushCur secs cur) (entryBlock e ++ [[], []])
          = pushCur secs cur ++ [entryBlock e ++ [[], []]] := by
        simp [pushCur, entryBlock]
      rw [hp]
      simp [padBlocks]
  | cons e2 rest ih =>
    intro e hwfe hes secs cur
    obtain ⟨f1, f2, hf, hfold⟩ := scan_entryBlock e hwfe secs cur
    have hstep : interBlocks (List.map entryBlock (e :: e2 :: rest)) ++ [[], []]
        = entryBlock e ++ (sepPadLines ++
            (interBlocks (List.map entryBlock (e2 :: rest)) ++ [[], []])) := by
      simp [interBlocks]
    rw [hstep]
    obtain ⟨fsecs, fcur, g1, g2, hrec, hne, hpush⟩ :=
      ih e2 (hes e2 (List.mem_cons_self _ _))
        (fun x hx => hes x (List.mem_cons_of_mem _ hx))
        (pushCur secs cur) (entryBlock e ++ [[]])
    refine ⟨fsecs, fcur, g1, g2, ?_, hne, ?_⟩
    · rw [List.foldl_append, hfold, scan_sepPad _ _ _ _ hf, hrec]
    · rw [hpush]
      have hp : pushCur (pushCur secs cur) (entryBlock e ++ [[]])
          = pushCur secs cur ++ [entryBlock e ++ [[]]] := by
        simp [pushCur, entryBlock]
      rw [hp]
      simp [padBlocks]

/-- Filtering a filtered well-formed log: the header survives and every
block is reproduced with extra trailing blank lines. -/
theorem extract_expectedFiltered (uid now : Text) (es : List SessionEntry)
    (hwf : WfLog uid now es) :
    extractUserProvidedHistory (expectedFiltered uid now es)
      = expectedTwice uid now es := by
  cases hes : es with
  | nil =>
    rw [expectedFiltered_nil, ← mkLog_nil]
    have h0 : WfLog uid now [] := by
      obtain ⟨a, b, c, d, _⟩ := hwf
      exact ⟨a, b, c, d, by intro e he; cases he⟩
    rw [extract_mkLog uid now [] h0, expectedFiltered_nil, ← expectedFiltered_nil]
    simp [expectedFiltered, expectedTwice]
  | cons e0 rest =>
    subst hes
    have hne : (e0 :: rest : List SessionEntry) ≠ [] := by simp
    have hsplit := splitOnNl_expectedFiltered uid now _ hwf hne
    unfold extractUserProvidedHistory
    rw [hsplit]
    rw [headerOf_of_lines _ uid now
      ([] :: str "---" :: [] :: str "## Session History" :: [] ::
        (interBlocks (List.map entryBlock (e0 :: rest)) ++ [[], []]))
      (by rw [hsplit]; simp [headerLines])]
    obtain ⟨fsecs, fcur, f1, f2, hfold, hfne, hpush⟩ :=
      scan_inter_blocks rest e0 (hwf.2.2.2.2 e0 (List.mem_cons_self _ _))
        (fun x hx => hwf.2.2.2.2 x (List.mem_cons_of_mem _ hx)) [] []
    have hsections : userSections
        (headerLines uid now ++ (interBlocks (List.map entryBlock (e0 :: rest)) ++ [[], []]))
        = padBlocks (List.map entryBlock (e0 :: rest)) := by
      unfold userSections finalSections scanLines
      rw [List.foldl_append]
      rw [scan_headerLines _ _ hwf.2.2.1 hwf.2.2.2.1]
      rw [show (initScan : ScanState Text) = ⟨[], [], false, false, false⟩ from rfl]
      rw [hfold]
      have : pushCur [] [] = [] := by simp [pushCur]
      rw [this] at hpush
      simp only [List.nil_append] at hpush
      rw [← hpush]
      simp [pushCur, hfne]
    rw [hsections]
    have hpne : padBlocks (List.map entryBlock (e0 :: rest)) ≠ [] := by
      cases rest <;> simp [padBlocks]
    rw [if_neg hpne]
    unfold expectedTwice
    rw [if_neg hne]

/-! ## Position-tagged scanning: provenance of output lines -/

theorem idxFrom_append (A B : List Text) : ∀ n,
    idxFrom n (A ++ B) = idxFrom n A ++ idxFrom (n + A.length) B := by
  induction A with
  | nil => intro n; simp [idxFrom]
  | cons a as ih =>
    intro n
    simp only [List.cons_append, idxFrom, List.length_cons, List.append_eq]
    rw [ih (n + 1)]
    have harith : n + 1 + as.length = n + (as.length + 1) := by omega
    rw [harith]

theorem fst_mem_idxFrom (p : Nat × Text) : ∀ (L : List Text) (n : Nat),
    p ∈ idxFrom n L → n ≤ p.1 ∧ p.1 < n + L.length := by
  intro L
  induction L with
  | nil => intro n h; cases h
  | cons l ls ih =>
    intro n h
    rcases List.mem_cons.mp h with rfl | h2
    · simp
    · have := ih (n + 1) h2
      constructor <;> [omega; (simp only [List.length_cons]; omega)]

theorem snd_mem_idxFrom (p : Nat × Text) : ∀ (L : List Text) (n : Nat),
    p ∈ idxFrom n L → p.2 ∈ L := by
  intro L
  induction L with
  | nil => intro n h; cases h
  | cons l ls ih =>
    intro n h
    rcases List.mem_cons.mp h with rfl | h2
    · simp
    · exact List.mem_cons_of_mem _ (ih (n + 1) h2)

theorem map_snd_idxFrom (L : List Text) : ∀ n, (idxFrom n L).map Prod.snd = L := by
  induction L with
  | nil => intro n; rfl
  | cons l ls ih => intro n; simp [idxFrom, ih (n + 1)]

theorem processLine_map {α : Type} (f : α → Text) (s : ScanState α) (x : α) :
    processLine id (mapState f s) (f x) = mapState f (processLine f s x) := by
  obtain ⟨secs, cur, b1, b2, b3⟩ := s
  by_cases h1 : isSessionStart (f x) <;>
    by_cases h2 : hasSymptomsMarker (f x) <;>
      by_cases h3 : hasHealthMarker (f x) <;>
        by_cases h4 : hasDiagnosisMarker (f x) <;>
          by_cases h5 : isSeparatorLine (f x) <;>
            cases b1 <;> cases b2 <;> cases cur <;>
              simp [processLine, mapState, pushCurrent, h1, h2, h3, h4, h5]

theorem foldl_map_state {α : Type} (f : α → Text) (lines : List α) : ∀ (s : ScanState α),
    List.foldl (processLine id) (mapState f s) (lines.map f)
      = mapState f (List.foldl (processLine f) s lines) := by
  induction lines with
  | nil => intro s; rfl
  | cons l ls ih =>
    intro s
    simp only [List.map_cons, List.foldl_cons]
    rw [processLine_map, ih]

theorem finalSections_map {α : Type} (f : α → Text) (lines : List α) :
    finalSections id (lines.map f) = (finalSections f lines).map (List.map f) := by
  unfold finalSections scanLines
  rw [show (initScan : ScanState Text) = mapState f initScan from rfl, foldl_map_state]
  generalize List.foldl (processLine f) initScan lines = s
  obtain ⟨secs, cur, b1, b2, b3⟩ := s
  cases cur <;> cases b3 <;> simp [mapState]

theorem userSections_idx (lines : List Text) :
    (finalSections Prod.snd (idx lines)).map (List.map Prod.snd) = userSections lines := by
  unfold userSections idx
  rw [← finalSections_map Prod.snd (idxFrom 0 lines), map_snd_idxFrom]

theorem step_keeps_notMem {α : Type} (val : α → Text) (t : α) (s : ScanState α) (x : α)
    (hx : t ≠ x) (hs : ¬ memState t s) : ¬ memState t (processLine val s x) := by
  obtain ⟨secs, cur, b1, b2, b3⟩ := s
  simp only [memState, not_or, not_exists] at hs ⊢
  obtain ⟨hcur, hsecs⟩ := hs
  have hpush : ∀ b ∈ pushCurrent (⟨secs, cur, b1, b2, b3⟩ : ScanState α), t ∉ b := by
    intro b hb
    unfold pushCurrent at hb
    by_cases hc : (cur : List α).isEmpty
    · rw [if_pos hc] at hb
      exact fun ht => hsecs b ⟨hb, ht⟩
    · rw [if_neg hc] at hb
      rcases List.mem_append.mp hb with hb | hb
      · exact fun ht => hsecs b ⟨hb, ht⟩
      · rcases List.mem_singleton.mp hb with rfl
        exact hcur
  have hx2 : t ∉ ([x] : List α) := by
    intro hmem
    exact hx (List.mem_singleton.mp hmem)
  by_cases h1 : isSessionStart (val x) <;>
    by_cases h2 : hasSymptomsMarker (val x) <;>
      by_cases h3 : hasHealthMarker (val x) <;>
        by_cases h4 : hasDiagnosisMarker (val x) <;>
          by_cases h5 : isSeparatorLine (val x) <;>
            cases b1 <;> cases b2 <;>
              simp_all [processLine, List.mem_append, List.mem_singleton]

theorem foldl_keeps_notMem {α : Type} (val : α → Text) (t : α) (L : List α) :
    ∀ (s : ScanState α), t ∉ L → ¬ memState t s →
      ¬ memState t (List.foldl (processLine val) s L) := by
  induction L with
  | nil => intro s _ hs; exact hs
  | cons x xs ih =>
    intro s hL hs
    rw [List.foldl_cons]
    exact ih _ (fun h => hL (List.mem_cons_of_mem _ h))
      (step_keeps_notMem val t s x (fun h => hL (h ▸ List.mem_cons_self _ _)) hs)

theorem pureDiag_parts (l : Text) (h : pureDiagnosisMarker l = true) :
    isSessionStart l = false ∧ hasSymptomsMarker l = false ∧ hasHealthMarker l = false ∧
      hasDiagnosisMarker l = true := by
  simp only [pureDiagnosisMarker, Bool.and_eq_true, Bool.not_eq_true'] at h
  exact ⟨h.1.1.1, h.1.1.2, h.1.2, h.2⟩

theorem mem_finalSections {α : Type} (val : α → Text) (lines : List α) (b : List α)
    (hb : b ∈ finalSections val lines) :
    b ∈ (scanLines val lines).sections ∨ b = (scanLines val lines).current := by
  unfold finalSections at hb
  by_cases hc : (scanLines val lines).current.isEmpty = false ∧
      (scanLines val lines).inDiagnosis = false
  · rw [if_pos hc] at hb
    rcases List.mem_append.mp hb with hb | hb
    · exact Or.inl hb
    · exact Or.inr (List.mem_singleton.mp hb)
  · rw [if_neg hc] at hb
    exact Or.inl hb

/-- Core of claim C1: a line occurrence lying strictly after a line the
scanner takes as diagnosis marker, with no marker or separator in between,
is never part of an emitted section. -/
theorem diag_region_dropped (pre mid post : List Text) (d x : Text)
    (hd : pureDiagnosisMarker d = true)
    (hmid : ∀ l ∈ mid, plainLine l = true)
    (hx : plainLine x = true) :
    ∀ b ∈ finalSections Prod.snd (idx (pre ++ d :: (mid ++ x :: post))),
      (pre.length + 1 + mid.length, x) ∉ b := by
  intro b hb
  obtain ⟨d0, d1, d2, d3⟩ := pureDiag_parts d hd
  have hidx : idx (pre ++ d :: (mid ++ x :: post))
      = (idx pre ++ (pre.length, d) :: idxFrom (pre.length + 1) mid)
        ++ ((pre.length + 1 + mid.length, x)
            :: idxFrom (pre.length + 1 + mid.length + 1) post) := by
    unfold idx
    rw [idxFrom_append]
    simp only [Nat.zero_add, idxFrom]
    rw [idxFrom_append]
    simp [idxFrom]
  have htA : (pre.length + 1 + mid.length, x)
      ∉ idx pre ++ (pre.length, d) :: idxFrom (pre.length + 1) mid := by
    intro hmem
    rcases List.mem_append.mp hmem with h | h
    · have := fst_mem_idxFrom _ _ _ h
      simp only at this
      omega
    · rcases List.mem_cons.mp h with h | h
      · have : pre.length + 1 + mid.length = pre.length := congrArg Prod.fst h
        omega
      · have := fst_mem_idxFrom _ _ _ h
        simp only at this
        omega
  have hinit : ¬ memState (pre.length + 1 + mid.length, x) (initScan : ScanState (Nat × Text)) := by
    simp [memState, initScan]
  have hmemA : ¬ memState (pre.length + 1 + mid.length, x)
      (List.foldl (processLine Prod.snd) initScan
        (idx pre ++ (pre.length, d) :: idxFrom (pre.length + 1) mid)) :=
    foldl_keeps_notMem _ _ _ _ htA hinit
  have hflagsA : List.foldl (processLine Prod.snd) initScan
        (idx pre ++ (pre.length, d) :: idxFrom (pre.length + 1) mid)
      = ⟨(List.foldl (processLine Prod.snd) initScan (idx pre)).sections,
          (List.foldl (processLine Prod.snd) initScan (idx pre)).current,
          false, false, true⟩ := by
    rw [List.foldl_append, List.foldl_cons]
    rw [diag_step Prod.snd _ _ d0 d1 d2 d3]
    exact foldl_plain_noop Prod.snd _ _
      (fun p hp => hmid p.2 (snd_mem_idxFrom _ _ _ hp)) rfl rfl
  have hstepx : processLine Prod.snd
        (⟨(List.foldl (processLine Prod.snd) initScan (idx pre)).sections,
          (List.foldl (processLine Prod.snd) initScan (idx pre)).current,
          false, false, true⟩ : ScanState (Nat × Text))
        (pre.length + 1 + mid.length, x)
      = ⟨(List.foldl (processLine Prod.snd) initScan (idx pre)).sections,
          (List.foldl (processLine Prod.snd) initScan (idx pre)).current,
          false, false, true⟩ :=
    plain_noop_step Prod.snd _ _ hx rfl rfl
  have hfinal : ¬ memState (pre.length + 1 + mid.length, x)
      (scanLines Prod.snd (idx (pre ++ d :: (mid ++ x :: post)))) := by
    unfold scanLines
    rw [hidx, List.foldl_append, List.foldl_cons]
    rw [hflagsA] at hmemA ⊢
    rw [hstepx]
    apply foldl_keeps_notMem
    · intro hmem
      have := fst_mem_idxFrom _ _ _ hmem
      simp only at this
      omega
    · exact hmemA
  rcases mem_finalSections Prod.snd _ b hb with hbs | hbc
  · intro ht
    exact hfinal (Or.inr ⟨b, hbs, ht⟩)
  · intro ht
    subst hbc
    exact hfinal (Or.inl ht)

/-! ## The claims -/

/-- Claim C1, as stated, is false on the code: a line that contains the
diagnosis marker but also the symptoms marker is treated as a symptoms
marker (the checks run in order), so the text after it — here `SECRET`,
strictly after a line containing `**Diagnosis & Recommendations:**` within
an entry, with no separator or marker line in between — does appear in the
filter output. -/
theorem c1_counterexample :
    hasDiagnosisMarker (str "**Symptoms Reported:** x **Diagnosis & Recommendations:**") = true
    ∧ isSessionStart (str "### Session 1") = true
    ∧ isMarkerLine (str "SECRET") = false
    ∧ isSeparatorLine (str "SECRET") = false
    ∧ hasInfixTxt (str "SECRET")
        (extractUserProvidedHistory
          (str "### Session 1\n**Symptoms Reported:** x **Diagnosis & Recommendations:**\nSECRET"))
        = true := by decide

/-- Claim C1 (amended): no output section contains any line occurrence that
lies strictly after a line the scanner takes as a diagnosis-field marker
(one containing `**Diagnosis & Recommendations:**` and neither starting a
session nor containing the symptoms or health-context markers), up to the
next separator or marker line; the position-tagged scan projects onto the
program's scan; and filtering a log holding one entry with symptoms
`cough` plus a diagnosis paragraph yields the view whose only body text is
`cough` under the symptoms marker, the diagnosis paragraph appearing
nowhere. -/
theorem c1_diagnosis_text_never_emitted (pre mid post : List Text) (d x : Text)
    (hd : pureDiagnosisMarker d = true)
    (hmid : ∀ l ∈ mid, plainLine l = true)
    (hx : plainLine x = true) :
    (∀ b ∈ finalSections Prod.snd (idx (pre ++ d :: (mid ++ x :: post))),
        (pre.length + 1 + mid.length, x) ∉ b)
    ∧ (finalSections Prod.snd (idx (pre ++ d :: (mid ++ x :: post)))).map (List.map Prod.snd)
        = userSections (pre ++ d :: (mid ++ x :: post))
    ∧ extractUserProvidedHistory
        (mkLog (str "u") (str "T0") [⟨str "T1", str "cough", none, str "Take rest and fluids."⟩])
        = str "# Medical History - User u\n\n**Created:** T0\n\n---\n\n## Session History\n\n### Session T1\n**Symptoms Reported:**\ncough\n\n\n\n"
    ∧ hasInfixTxt (str "Take rest and fluids.")
        (extractUserProvidedHistory
          (mkLog (str "u") (str "T0") [⟨str "T1", str "cough", none, str "Take rest and fluids."⟩]))
        = false :=
  ⟨diag_region_dropped pre mid post d x hd hmid hx,
   userSections_idx _,
   by decide,
   by decide⟩

/-- Witness for C1 (amended) at a concrete input: one prior session line,
then a bare diagnosis marker, then the line `flu`. -/
theorem c1_diagnosis_text_never_emitted_witness :
    (∀ b ∈ finalSections Prod.snd
        (idx ([str "### Session 9"] ++ diagnosisMarkerTxt :: ([] ++ str "flu" :: ([] : List Text)))),
        (([str "### Session 9"] : List Text).length + 1 + ([] : List Text).length, str "flu") ∉ b)
    ∧ (finalSections Prod.snd
        (idx ([str "### Session 9"] ++ diagnosisMarkerTxt :: ([] ++ str "flu" :: ([] : List Text))))).map
          (List.map Prod.snd)
        = userSections ([str "### Session 9"] ++ diagnosisMarkerTxt :: ([] ++ str "flu" :: ([] : List Text)))
    ∧ extractUserProvidedHistory
        (mkLog (str "u") (str "T0") [⟨str "T1", str "cough", none, str "Take rest and fluids."⟩])
        = str "# Medical History - User u\n\n**Created:** T0\n\n---\n\n## Session History\n\n### Session T1\n**Symptoms Reported:**\ncough\n\n\n\n"
    ∧ hasInfixTxt (str "Take rest and fluids.")
        (extractUserProvidedHistory
          (mkLog (str "u") (str "T0") [⟨str "T1", str "cough", none, str "Take rest and fluids."⟩]))
        = false :=
  c1_diagnosis_text_never_emitted [str "### Session 9"] [] [] diagnosisMarkerTxt (str "flu")
    (by decide) (by intro l hl; cases hl) (by decide)

/-- Claim C2: on a log made only of well-formed entries, the filter output
is exactly the header, the Session History label and the per-entry blocks
of user-asserted fields; it is unchanged when the model outputs change,
and it contains every symptoms and health-context text verbatim. -/
theorem c2_filter_on_wellformed_logs (uid now : Text) (es : List SessionEntry)
    (hwf : WfLog uid now es) :
    extractUserProvidedHistory (mkLog uid now es) = expectedFiltered uid now es
    ∧ (∀ es', WfLog uid now es' → es.map eraseOutput = es'.map eraseOutput →
        extractUserProvidedHistory (mkLog uid now es)
          = extractUserProvidedHistory (mkLog uid now es'))
    ∧ (∀ e ∈ es,
        hasInfixTxt e.symptoms (extractUserProvidedHistory (mkLog uid now es)) = true
        ∧ ∀ htext, e.health = some htext →
            hasInfixTxt htext (extractUserProvidedHistory (mkLog uid now es)) = true) := by
  refine ⟨extract_mkLog uid now es hwf, ?_, ?_⟩
  · intro es' hwf' herase
    rw [extract_mkLog uid now es hwf, extract_mkLog uid now es' hwf']
    exact expectedFiltered_of_erase uid now es es' herase
  · intro e he
    rw [extract_mkLog uid now es hwf]
    exact ⟨expectedFiltered_parts uid now es e he e.symptoms (entryBlock_sym_parts e),
      fun htext hh =>
        expectedFiltered_parts uid now es e he htext (entryBlock_health_parts e htext hh)⟩

/-- Witness for C2 at a concrete one-entry log with health context. -/
theorem c2_filter_on_wellformed_logs_witness :
    extractUserProvidedHistory
        (mkLog (str "u") (str "T0")
          [⟨str "T1", str "cough", some (str "asthma"), str "Take rest."⟩])
      = expectedFiltered (str "u") (str "T0")
          [⟨str "T1", str "cough", some (str "asthma"), str "Take rest."⟩] :=
  (c2_filter_on_wellformed_logs (str "u") (str "T0")
    [⟨str "T1", str "cough", some (str "asthma"), str "Take rest."⟩] (by decide)).1

/-- Claim C4, as stated, is false on the code: the filter is not idempotent
on its own output. Re-filtering sweeps the blank padding around the block
separators into the blocks, so a second application appends extra blank
lines rather than returning the view unchanged. -/
theorem c4_counterexample :
    extractUserProvidedHistory (extractUserProvidedHistory (str "**Symptoms Reported:**"))
      ≠ extractUserProvidedHistory (str "**Symptoms Reported:**") := by decide

/-- Claim C4 (amended): filtering an already-filtered well-formed log
yields the same header and Session History label and the same entry
blocks, except that every non-final block gains one trailing empty line
and the final block gains two; exact idempotence fails. -/
theorem c4_refilter_adds_blank_lines (uid now : Text) (es : List SessionEntry)
    (hwf : WfLog uid now es) :
    extractUserProvidedHistory (extractUserProvidedHistory (mkLog uid now es))
      = expectedTwice uid now es := by
  rw [extract_mkLog uid now es hwf]
  exact extract_expectedFiltered uid now es hwf

/-- Witness for C4 (amended) at a concrete one-entry log. -/
theorem c4_refilter_adds_blank_lines_witness :
    extractUserProvidedHistory
        (extractUserProvidedHistory
          (mkLog (str "u") (str "T0") [⟨str "T1", str "cough", none, str "Take rest and fluids."⟩]))
      = expectedTwice (str "u") (str "T0") [⟨str "T1", str "cough", none, str "Take rest and fluids."⟩] :=
  c4_refilter_adds_blank_lines (str "u") (str "T0")
    [⟨str "T1", str "cough", none, str "Take rest and fluids."⟩] (by decide)

/-- Claim C3 is right about the intent but the code is wrong: the catch in
`loadUserHistory` swallows every read error, not just `not found`. With an
existing log whose read fails with a permission error (and a writable
directory), the load succeeds with a freshly created header-only log and
overwrites the stored one, instead of surfacing a storage error. The
other halves of the claim do hold: `appendToUserHistory` propagates write
errors and `initializeUserDataDir` swallows its failure. -/
theorem c3_load_swallows_permission_error :
    loadUserHistory
        ⟨[(logPath (str "u"), str "old log")], [(logPath (str "u"), FsError.permission)], []⟩
        (str "u") (str "T")
      = .ok (initialContent (str "u") (str "T"),
          ⟨[(logPath (str "u"), initialContent (str "u") (str "T"))],
            [(logPath (str "u"), FsError.permission)], []⟩)
    ∧ initialContent (str "u") (str "T") ≠ str "old log"
    ∧ appendToUserHistory ⟨[], [], [(logPath (str "u"), FsError.permission)]⟩
        (str "u") (str "T") (str "fever") (str "rest") none = .error FsError.permission
    ∧ initializeUserDataDir (.error FsError.disk) = .ok () :=
  ⟨rfl, by decide, rfl, rfl⟩

/-- Claim C5: when the model stream fails after a prefix of chunks, the
handler's body is the relayed partial text followed by the inline error
notices, no entry is appended (the store stays as it was after the load),
and when the log already existed the store is byte-for-byte unchanged. -/
theorem c5_stream_failure_no_append (req : DiagnoseRequest) (fs fs1 : Fs)
    (fresh now hist err : Text) (chunks : List (Option Text)) (s : Text)
    (hs : req.symptoms = some s) (hne : s ≠ [])
    (hload : loadUserHistory fs (ensureUserId req.userId fresh) now = .ok (hist, fs1)) :
    diagnoseHandler req fs fresh now (.failure chunks err)
      = ⟨200, concatChunks chunks
            ++ streamErrorNotice err chunks.length (concatChunks chunks).length,
          fs1, true, false⟩
    ∧ (∀ c, findAssoc fs.files (logPath (ensureUserId req.userId fresh)) = some c →
        findAssoc fs.readErrs (logPath (ensureUserId req.userId fresh)) = none →
        fs1 = fs) := by
  constructor
  · simp [diagnoseHandler, hs, hne, hload]
  · intro c hc hr
    unfold loadUserHistory readFile at hload
    rw [hr, hc] at hload
    cases hload
    rfl

/-- Witness for C5: an existing one-user store, a stream that delivers
`Based on` and then fails. -/
theorem c5_stream_failure_no_append_witness :
    diagnoseHandler ⟨some (str "fever"), none, some (str "u")⟩
        ⟨[(logPath (str "u"), initialContent (str "u") (str "T0"))], [], []⟩
        (str "g") (str "T1") (.failure [some (str "Based on")] (str "boom"))
      = ⟨200, concatChunks [some (str "Based on")]
            ++ streamErrorNotice (str "boom") ([some (str "Based on")] : List (Option Text)).length
                (concatChunks [some (str "Based on")]).length,
          ⟨[(logPath (str "u"), initialContent (str "u") (str "T0"))], [], []⟩, true, false⟩ :=
  (c5_stream_failure_no_append ⟨some (str "fever"), none, some (str "u")⟩
    ⟨[(logPath (str "u"), initialContent (str "u") (str "T0"))], [], []⟩
    ⟨[(logPath (str "u"), initialContent (str "u") (str "T0"))], [], []⟩
    (str "g") (str "T1") (initialContent (str "u") (str "T0")) (str "boom")
    [some (str "Based on")] (str "fever") rfl (by decide) rfl).1

/-- Claim C6: a missing or empty `symptoms` field is rejected with a 400
input error before any store access or model call: the store is returned
untouched, no model call happens, and nothing is appended. -/
theorem c6_empty_symptoms_rejected (req : DiagnoseRequest) (fs : Fs)
    (fresh now : Text) (stream : StreamOutcome)
    (h : req.symptoms = none ∨ req.symptoms = some []) :
    diagnoseHandler req fs fresh now stream = ⟨400, inputErrorBody, fs, false, false⟩ := by
  rcases h with h | h <;> simp [diagnoseHandler, h]

/-- Witness for C6 with an empty symptoms string. -/
theorem c6_empty_symptoms_rejected_witness :
    diagnoseHandler ⟨some [], none, none⟩ ⟨[], [], []⟩ (str "g") (str "T")
        (.success [some (str "hi")])
      = ⟨400, inputErrorBody, ⟨[], [], []⟩, false, false⟩ :=
  c6_empty_symptoms_rejected ⟨some [], none, none⟩ ⟨[], [], []⟩ (str "g") (str "T")
    (.success [some (str "hi")]) (Or.inr rfl)

/-- Claim C7, as stated, is false on the code: the separator test is
`line.trim() === '---'`, so a whitespace-padded `---` also resets the
flags and is not appended — the claim says such a line, in the
inside-symptoms state, would be appended. -/
theorem c7_counterexample :
    str " ---" ≠ str "---"
    ∧ isMarkerLine (str " ---") = false
    ∧ (⟨[], [str "x"], true, false, false⟩ : ScanState Text).inSymptoms = true
    ∧ processLine id ⟨[], [str "x"], true, false, false⟩ (str " ---")
        = ⟨[], [str "x"], false, false, false⟩ := by decide

/-- Claim C7 (amended): among non-marker lines, exactly those whose
`trim` equals `---` reset all three state flags without being appended;
every other non-marker line is appended precisely when the state is
inside-symptoms or inside-health-context and is dropped in the
inside-diagnosis and none states. -/
theorem c7_separator_and_plain_line_rules (s : ScanState Text) (l : Text)
    (hm : isMarkerLine l = false) :
    (isSeparatorLine l = true →
      processLine id s l = ⟨s.sections, s.current, false, false, false⟩)
    ∧ (isSeparatorLine l = false → (s.inSymptoms = true ∨ s.inHealth = true) →
      processLine id s l = { s with current := s.current ++ [l] })
    ∧ (isSeparatorLine l = false → s.inSymptoms = false → s.inHealth = false →
      processLine id s l = s) := by
  refine ⟨fun hsep => sep_step id s l hm hsep, fun hsep hf => ?_, fun hsep h1 h2 => ?_⟩
  · exact plain_append_step id s l (by simp [plainLine, hm, hsep]) hf
  · exact plain_noop_step id s l (by simp [plainLine, hm, hsep]) h1 h2

/-- Witness for C7 (amended): a padded separator resets the flags from the
inside-symptoms state, and an ordinary line is appended there. -/
theorem c7_separator_and_plain_line_rules_witness :
    processLine id (⟨[], [str "x"], true, false, false⟩ : ScanState Text) (str "  ---")
        = ⟨[], [str "x"], false, false, false⟩
    ∧ processLine id (⟨[], [str "x"], true, false, false⟩ : ScanState Text) (str "wheeze")
        = ⟨[], [str "x"] ++ [str "wheeze"], true, false, false⟩ :=
  ⟨(c7_separator_and_plain_line_rules ⟨[], [str "x"], true, false, false⟩ (str "  ---")
      (by decide)).1 (by decide),
   (c7_separator_and_plain_line_rules ⟨[], [str "x"], true, false, false⟩ (str "wheeze")
      (by decide)).2.1 (by decide) (Or.inl rfl)⟩

/-- Claim C8: at end of input the accumulator is flushed into the
completed sections exactly when it is non-empty and the scan did not end
inside a diagnosis section; an accumulator left mid-diagnosis is discarded
entirely. -/
theorem c8_eof_flush (lines : List Text) :
    ((scanLines id lines).current ≠ [] → (scanLines id lines).inDiagnosis = false →
      userSections lines = (scanLines id lines).sections ++ [(scanLines id lines).current])
    ∧ ((scanLines id lines).inDiagnosis = true →
      userSections lines = (scanLines id lines).sections)
    ∧ ((scanLines id lines).current = [] →
      userSections lines = (scanLines id lines).sections) := by
  unfold userSections finalSections
  refine ⟨fun hc hd => ?_, fun hd => ?_, fun hc => ?_⟩
  · rw [if_pos ⟨by simpa [List.isEmpty_iff] using hc, hd⟩]
  · rw [if_neg]
    intro hfalse
    rw [hd] at hfalse
    exact absurd hfalse.2 (by simp)
  · rw [if_neg]
    intro hfalse
    rw [hc] at hfalse
    simp at hfalse

/-- Witness for C8: a log ending mid-diagnosis (no trailing separator)
emits nothing — the accumulated symptoms line `cough` is discarded. -/
theorem c8_eof_flush_witness :
    userSections [str "### Session 1", symptomsMarkerTxt, str "cough",
        diagnosisMarkerTxt, str "flu"]
      = (scanLines id [str "### Session 1", symptomsMarkerTxt, str "cough",
          diagnosisMarkerTxt, str "flu"]).sections
    ∧ (scanLines id [str "### Session 1", symptomsMarkerTxt, str "cough",
        diagnosisMarkerTxt, str "flu"]).sections = ([] : List (List Text))
    ∧ (scanLines id [str "### Session 1", symptomsMarkerTxt, str "cough",
        diagnosisMarkerTxt, str "flu"]).current ≠ [] :=
  ⟨(c8_eof_flush [str "### Session 1", symptomsMarkerTxt, str "cough",
      diagnosisMarkerTxt, str "flu"]).2.1 (by decide), by decide, by decide⟩

/-- Claim C9: `loadUserHistory` returns an existing log verbatim with the
store untouched; when no log exists it does not error but writes and
returns a fresh log whose text is exactly the fixed header — the
`# Medical History - User` title line, a `**Created:**` timestamp line, a
`---` separator and the `## Session History` label — with an empty entry
section. -/
theorem c9_load_contract (fs : Fs) (uid now c : Text)
    (hno : '\n' ∉ uid) (hnn : '\n' ∉ now) :
    (findAssoc fs.readErrs (logPath uid) = none →
      findAssoc fs.files (logPath uid) = some c →
      loadUserHistory fs uid now = .ok (c, fs))
    ∧ (findAssoc fs.readErrs (logPath uid) = none →
      findAssoc fs.files (logPath uid) = none →
      findAssoc fs.writeErrs (logPath uid) = none →
      loadUserHistory fs uid now
        = .ok (initialContent uid now,
            { fs with files := setAssoc fs.files (logPath uid) (initialContent uid now) }))
    ∧ splitOnNl (initialContent uid now)
        = [headerLine0 uid, [], createdLine now, [], str "---", [],
            str "## Session History", [], []] := by
  refine ⟨fun hre hf => ?_, fun hre hf hwe => ?_, ?_⟩
  · unfold loadUserHistory readFile
    rw [hre, hf]
  · unfold loadUserHistory readFile writeFile
    rw [hre, hf, hwe]
  · have hjoin : initialContent uid now = joinNl (headerLines uid now ++ [[]]) := by
      rw [joinNl_append _ _ (by simp [headerLines]) (by simp)]
      rw [← joinNl_headerLines uid now]
      rfl
    rw [hjoin, splitOnNl_joinNl]
    · simp [headerLines]
    · simp [headerLines]
    · intro l hl
      simp only [headerLines, List.mem_append, List.mem_cons, List.mem_singleton] at hl
      rcases hl with (h | h | h | h | h | h | h | h | h) | h
      · exact h ▸ noNl_str_append _ _ (by decide) hno
      · subst h; intro hx; cases hx
      · exact h ▸ noNl_str_append _ _ (by decide) hnn
      · subst h; intro hx; cases hx
      · exact h ▸ (by decide)
      · subst h; intro hx; cases hx
      · exact h ▸ (by decide)
      · subst h; intro hx; cases hx
      · cases h
      · rcases h with rfl | h
        · intro hx; cases hx
        · cases h

/-- Witness for C9: a store with one existing log and an empty store. -/
theorem c9_load_contract_witness :
    loadUserHistory ⟨[(logPath (str "u"), str "my log")], [], []⟩ (str "u") (str "T")
      = .ok (str "my log", ⟨[(logPath (str "u"), str "my log")], [], []⟩)
    ∧ loadUserHistory ⟨[], [], []⟩ (str "u") (str "T")
      = .ok (initialContent (str "u") (str "T"),
          ⟨[(logPath (str "u"), initialContent (str "u") (str "T"))], [], []⟩) :=
  ⟨(c9_load_contract ⟨[(logPath (str "u"), str "my log")], [], []⟩ (str "u") (str "T")
      (str "my log") (by decide) (by decide)).1 rfl rfl,
   (c9_load_contract ⟨[], [], []⟩ (str "u") (str "T")
      (str "unused") (by decide) (by decide)).2.1 rfl rfl rfl⟩

/-- Claim C10: `ensureUserId` returns the provided identifier exactly when
it is a non-empty string, and falls back to the freshly generated UUID
when the identifier is absent or empty. -/
theorem c10_ensure_user_id (provided : Option Text) (fresh s : Text) :
    (provided = some s → s ≠ [] → ensureUserId provided fresh = s)
    ∧ (provided = none → ensureUserId provided fresh = fresh)
    ∧ (provided = some [] → ensureUserId provided fresh = fresh) := by
  refine ⟨fun hp hs => ?_, fun hp => ?_, fun hp => ?_⟩
  · rw [hp]; simp [ensureUserId, hs]
  · rw [hp]; rfl
  · rw [hp]; rfl

/-- Witness for C10: a non-empty identifier is kept; an empty one is
replaced by the generated token. -/
theorem c10_ensure_user_id_witness :
    ensureUserId (some (str "alice")) (str "uuid-1") = str "alice"
    ∧ ensureUserId (some []) (str "uuid-1") = str "uuid-1"
    ∧ ensureUserId none (str "uuid-1") = str "uuid-1" :=
  ⟨(c10_ensure_user_id (some (str "alice")) (str "uuid-1") (str "alice")).1 rfl (by decide),
   (c10_ensure_user_id (some []) (str "uuid-1") (str "alice")).2.2 rfl,
   (c10_ensure_user_id none (str "uuid-1") (str "alice")).2.1 rfl⟩
